import Mathlib

/-!
Shallow embedding of the write-back block queue in `block-queue.c`
(the variant with error handling, `num_waiting_for_cb` and the
write-through bypass; its `blkqueue_*` functions are the ones cited by
the specification).

Modelling choices, stated once here:

* Machine integers: offsets, sizes and sections are C `uint64_t`
  resp. `unsigned`; they are modelled as `Nat` (no claim depends on
  wrap-around).  C `int` fields (`queue_size`, `flushing`,
  `num_waiting_for_cb`, `error_ret`) are modelled as `Int`.
* A `BlockQueueRequest` node is identified by a numeric id `rid`
  (standing for the node's address); the queue hands out fresh ids from
  `nextId`.  The `sections` list of the C code shares nodes with the
  main queue; here both lists carry request values and an update to a
  shared node is applied to both lists by matching on `rid`.
* Buffers: a request's payload is a `List Nat` of bytes
  (`buf[i]` is the byte at absolute disk offset `offset + i`).  The
  data an incoming `pwrite` carries is a function `nb : Nat → Nat`
  giving the byte destined for each absolute offset (the C code's
  `buf`/`offset` pointer pair advancing in lockstep).  The backing
  device contents are a function `disk : Nat → Nat`.
* The backend adapter (`bdrv_pread`, `bdrv_pwrite`, `bdrv_aio_pwrite`,
  `bdrv_aio_flush`) is modelled as deterministic and error free: a
  synchronous write updates `disk` at once, an asynchronous write
  updates `disk` when its completion (`blkqueue_process_request_cb`)
  fires with `ret ≥ 0`.  Calls into the backend and invocations of
  attached completion callbacks are recorded in an observation trace
  `log`.
* `blkqueue_pread`/`blkqueue_pwrite` recurse through
  `blkqueue_check_queue_overlap` (the "request contains the queued
  request" case); the C recursion terminates because the remaining
  size strictly shrinks.  The embedding makes this explicit with a
  fuel parameter; fuel larger than the request size is enough.
* `blkqueue_check_queue_overlap` is one C function used at two call
  sites with different overlap handlers (read from the queue
  vs. update the queue in place).  It is embedded twice, once per
  instantiation: `scanRead` (handler `pread_handle_overlap`, no queue
  mutation) and `scanWrite` (handler `pwrite_handle_overlap`, queue
  mutation by `rid`).  Both walk the queue in reverse order; the
  iteration order is captured by a snapshot of the node ids, mutations
  go through the live queue.
* Enqueue operations are modelled without the trailing
  `blkqueue_process_request(bq)` call (exactly the `RUN_TESTS` build
  of the repository); the completion driver `blkqueue_submit_request`
  and the completion callback are separate operations, applied
  explicitly where a trace needs them.
* The statistics counters `barriers_requested`/`barriers_submitted`
  and the debug output are not modelled; `in_flight_type` is kept.
-/

namespace BlkQueue

/-- Request type tag, `enum blkqueue_req_type`. -/
inductive ReqType where
  | write
  | barrier
deriving DecidableEq, Repr

/-- A `BlockQueueRequest`: node id, tag, range, payload bytes, section,
and the ids of the attached `BlockQueueAIOCB` flush waiters. -/
structure Request where
  rid : Nat
  rtype : ReqType
  offset : Nat
  size : Nat
  buf : List Nat
  sec : Nat
  acbs : List Nat
deriving DecidableEq, Repr

/-- Observable events: completion callbacks firing and backend calls. -/
inductive Ev where
  | cbFire (acb : Nat) (ret : Int)
  | bdrvPwrite (off sz : Nat)
  | bdrvAioPwrite (off sz : Nat)
  | bdrvAioFlush
deriving DecidableEq, Repr

/-- The `BlockQueue` state.  `pending` is `bq->queue` (head first),
`inflight` is `bq->in_flight`, `secs` is `bq->sections`.  `wbModes` is
the value of `(bq->bs->open_flags & (BDRV_O_NOCACHE | BDRV_O_CACHE_WB)) != 0`,
i.e. `false` means the image is write-through.  `disk` is the backing
device contents and `log` the observation trace. -/
structure BQ where
  pending : List Request
  inflight : List Request
  secs : List Request
  queueSize : Int
  flushing : Int
  numWaiting : Int
  errorRet : Int
  inFlightNum : Nat
  inFlightType : ReqType
  nextId : Nat
  wbModes : Bool
  disk : Nat → Nat
  log : List Ev

/-- `blkqueue_create`: empty queues, zeroed counters. -/
def blkqueue_create (wb : Bool) (d : Nat → Nat) : BQ :=
  { pending := []
    inflight := []
    secs := []
    queueSize := 0
    flushing := 0
    numWaiting := 0
    errorRet := 0
    inFlightNum := 0
    inFlightType := .write
    nextId := 0
    wbModes := wb
    disk := d
    log := [] }

/-- Look up a queue node by id (the C code follows a pointer; the
default is never consulted on well-formed states). -/
def findRid (l : List Request) (i : Nat) : Request :=
  match l.find? (fun r => r.rid = i) with
  | some r => r
  | none =>
    { rid := i
      rtype := .barrier
      offset := 0
      size := 0
      buf := []
      sec := 0
      acbs := [] }

/-- Apply an update to the node with id `i` (in C, a store through the
node pointer; node ids are unique on reachable states). -/
def updRid (l : List Request) (i : Nat) (g : Request → Request) : List Request :=
  l.map (fun r => if r.rid = i then g r else r)

/-- Insert `w` immediately before the first node with id `i`
(`QTAILQ_INSERT_BEFORE`; the id is present on well-formed states). -/
def insertBeforeRid : List Request → Nat → Request → List Request
  | [], _, w => [w]
  | x :: xs, i, w => if x.rid = i then w :: x :: xs else x :: insertBeforeRid xs i w

/-- Overwrite the bytes of request `r` on the absolute range
`[dst, dst+len)` with the incoming bytes `nb`
(`pwrite_handle_overlap`: `memcpy(old, new, size)` into the queued
request's buffer). -/
def overwriteBuf (r : Request) (dst len : Nat) (nb : Nat → Nat) : Request :=
  let nbuf := (List.range r.buf.length).map (fun j =>
    if dst ≤ r.offset + j ∧ r.offset + j < dst + len then nb (r.offset + j)
    else r.buf.getD j 0)
  { r with buf := nbuf }

/-- Overwrite the node with id `i` in the pending queue. -/
def updBuf (s : BQ) (i dst len : Nat) (nb : Nat → Nat) : BQ :=
  { s with pending := updRid s.pending i (fun r => overwriteBuf r dst len nb) }

/-- Copy bytes of the queued request `r` into the output buffer on the
absolute range `[dst, dst+len)` (`pread_handle_overlap`:
`memcpy(new, old, size)`); in every call site of
`blkqueue_check_queue_overlap` the source index in `r.buf` for
absolute position `a` is `a - r.offset`. -/
def copyFrom (r : Request) (dst len : Nat) (out : Nat → Nat) : Nat → Nat :=
  fun a => if dst ≤ a ∧ a < dst + len then r.buf.getD (a - r.offset) 0 else out a

/-- Result of one pass of `blkqueue_check_queue_overlap` at the read
instantiation: completion flag, the (possibly advanced) context
section, the remaining range and the output bytes so far. -/
structure RScan where
  completed : Bool
  cs : Nat
  off : Nat
  sz : Nat
  out : Nat → Nat

/-- `blkqueue_check_queue_overlap` instantiated with
`pread_handle_overlap`.  The list argument is the queue in reverse
order (`QTAILQ_FOREACH_REVERSE`).  `recFn` is the `recurse` function
pointer (`blkqueue_pread` itself). -/
def scanRead (recFn : Nat → Nat → Nat → (Nat → Nat) → Nat × (Nat → Nat))
    (minSec : Nat) :
    List Request → Nat → Nat → Nat → (Nat → Nat) → RScan
  | [], cs, off, sz, out => ⟨false, cs, off, sz, out⟩
  | r :: rest, cs, off, sz, out =>
    if r.rtype ≠ ReqType.write then
      scanRead recFn minSec rest cs off sz out
    else if r.sec < minSec then
      scanRead recFn minSec rest cs off sz out
    else
      let e := off + sz
      let rend := r.offset + r.size
      let cs1 := if e > r.offset ∧ off < rend then max cs r.sec else cs
      if off ≥ r.offset ∧ e ≤ rend then
        ⟨true, cs1, off, sz, copyFrom r off sz out⟩
      else if e ≥ r.offset ∧ e ≤ rend then
        scanRead recFn minSec rest cs1 off (r.offset - off)
          (copyFrom r r.offset (e - r.offset) out)
      else if off ≥ r.offset ∧ off < rend then
        scanRead recFn minSec rest cs1 rend (e - rend)
          (copyFrom r off (rend - off) out)
      else if r.offset ≥ off ∧ rend ≤ e then
        let out1 := copyFrom r r.offset (rend - r.offset) out
        let p := recFn cs1 rend (e - rend) out1
        scanRead recFn minSec rest p.1 off (r.offset - off) p.2
      else
        scanRead recFn minSec rest cs1 off sz out

/-- `blkqueue_pread`: consult `pending`, then `inflight`, then fall
through to the synchronous backend read for the remaining range.
Returns the advanced context section and the output bytes (by absolute
offset).  `fuel` bounds the recursion depth; any `fuel > sz` is
exact. -/
def blkqueue_pread : Nat → Nat → BQ → Nat → Nat → (Nat → Nat) → Nat × (Nat → Nat)
  | 0, cs, _, _, _, out => (cs, out)
  | fuel + 1, cs, s, off, sz, out =>
    let recFn := fun cs' o z ob => blkqueue_pread fuel cs' s o z ob
    let p := scanRead recFn 0 s.pending.reverse cs off sz out
    if p.completed then
      (p.cs, p.out)
    else
      let q := scanRead recFn 0 s.inflight.reverse p.cs p.off p.sz p.out
      if q.completed then
        (q.cs, q.out)
      else
        (q.cs, fun a => if q.off ≤ a ∧ a < q.off + q.sz then s.disk a else q.out a)

/-- Result of one pass of `blkqueue_check_queue_overlap` at the write
instantiation: completion flag, context section, remaining range, and
the queue state (mutated in place through `updBuf`). -/
structure WScan where
  completed : Bool
  cs : Nat
  off : Nat
  sz : Nat
  st : BQ

/-- `blkqueue_check_queue_overlap` instantiated with
`pwrite_handle_overlap`.  The list argument is the snapshot of the
node ids of `bq->queue` in reverse order; lookups and updates go
through the live queue.  `recFn` is `blkqueue_pwrite` itself; on
reachable states the requests it inserts sit behind the current
iteration position, so iterating the snapshot matches the C list
walk. -/
def scanWrite (recFn : Nat → Nat → Nat → BQ → Nat × BQ)
    (minSec : Nat) (nb : Nat → Nat) :
    List Nat → Nat → Nat → Nat → BQ → WScan
  | [], cs, off, sz, st => ⟨false, cs, off, sz, st⟩
  | i :: rest, cs, off, sz, st =>
    let r := findRid st.pending i
    if r.rtype ≠ ReqType.write then
      scanWrite recFn minSec nb rest cs off sz st
    else if r.sec < minSec then
      scanWrite recFn minSec nb rest cs off sz st
    else
      let e := off + sz
      let rend := r.offset + r.size
      let cs1 := if e > r.offset ∧ off < rend then max cs r.sec else cs
      if off ≥ r.offset ∧ e ≤ rend then
        ⟨true, cs1, off, sz, updBuf st i off sz nb⟩
      else if e ≥ r.offset ∧ e ≤ rend then
        scanWrite recFn minSec nb rest cs1 off (r.offset - off)
          (updBuf st i r.offset (e - r.offset) nb)
      else if off ≥ r.offset ∧ off < rend then
        scanWrite recFn minSec nb rest cs1 rend (e - rend)
          (updBuf st i off (rend - off) nb)
      else if r.offset ≥ off ∧ rend ≤ e then
        let st1 := updBuf st i r.offset (rend - r.offset) nb
        let p := recFn cs1 rend (e - rend) st1
        scanWrite recFn minSec nb rest p.1 off (r.offset - off) p.2
      else
        scanWrite recFn minSec nb rest cs1 off sz st

/-- First Barrier in `sections` whose section is at least `c`
(the `QSIMPLEQ_FOREACH` in `blkqueue_pwrite`). -/
def findSectionGE (secs : List Request) (c : Nat) : Option Request :=
  secs.find? (fun b => c ≤ b.sec)

/-- The new Write request allocated by `blkqueue_pwrite` after the
merge pass: an owned copy of the (remaining) incoming bytes. -/
def mkWrite (i off sz c : Nat) (nb : Nat → Nat) : Request :=
  { rid := i
    rtype := .write
    offset := off
    size := sz
    buf := (List.range sz).map (fun j => nb (off + j))
    sec := c
    acbs := [] }

/-- `blkqueue_pwrite`.  Write-through images bypass the queue and call
`bdrv_pwrite` synchronously.  Otherwise the overlap pass may absorb
the write in place; the remainder is allocated as a fresh Write and
inserted right before the Barrier that closes its section, or at the
tail.  Returns the updated context section and state. -/
def blkqueue_pwrite : Nat → Nat → Nat → Nat → (Nat → Nat) → BQ → Nat × BQ
  | 0, cs, _, _, _, s => (cs, s)
  | fuel + 1, cs, off, sz, nb, s =>
    if s.wbModes = false then
      (cs, { s with
             disk := fun a => if off ≤ a ∧ a < off + sz then nb a else s.disk a
             log := s.log ++ [Ev.bdrvPwrite off sz] })
    else
      let w := scanWrite (fun cs' o z st => blkqueue_pwrite fuel cs' o z nb st)
        cs nb (s.pending.map Request.rid).reverse cs off sz s
      if w.completed then
        (w.cs, w.st)
      else
        let req := mkWrite w.st.nextId w.off w.sz w.cs nb
        match findSectionGE w.st.secs w.cs with
        | some b =>
          (b.sec, { w.st with
                    pending := insertBeforeRid w.st.pending b.rid { req with sec := b.sec }
                    nextId := w.st.nextId + 1
                    queueSize := w.st.queueSize + 1 })
        | none =>
          (w.cs, { w.st with
                   pending := w.st.pending ++ [req]
                   nextId := w.st.nextId + 1
                   queueSize := w.st.queueSize + 1 })

/-- The merge walk of `insert_barrier`: first Barrier in `sections`
with section at least `c`; when a waiter is being attached (`acb` set)
a Barrier that is not the very last entry of the queue is skipped
(`QTAILQ_NEXT(section_req, link)` non-null). -/
def findMergeBarrier (acbSet : Bool) (pendLast : Option Nat) (c : Nat) :
    List Request → Option Request
  | [] => none
  | b :: rest =>
    if c ≤ b.sec then
      if acbSet ∧ pendLast ≠ some b.rid then
        findMergeBarrier acbSet pendLast c rest
      else
        some b
    else
      findMergeBarrier acbSet pendLast c rest

/-- A fresh Barrier request (the C code leaves `offset`/`size`
uninitialised; they are irrelevant for Barriers and set to 0 here). -/
def mkBarrier (i c : Nat) : Request :=
  { rid := i
    rtype := .barrier
    offset := 0
    size := 0
    buf := []
    sec := c
    acbs := [] }

/-- Attach waiter `a` to the node with id `i` (shared between
`pending` and `secs`); `QLIST_INSERT_HEAD(&req->acbs, acb, link)` and
`bq->num_waiting_for_cb++`. -/
def attachAcb (s : BQ) (i a : Nat) : BQ :=
  { s with
    pending := updRid s.pending i (fun r => { r with acbs := a :: r.acbs })
    secs := updRid s.secs i (fun r => { r with acbs := a :: r.acbs })
    numWaiting := s.numWaiting + 1 }

/-- `insert_barrier`: merge with an existing Barrier when possible,
otherwise append a fresh Barrier to the tail of both `pending` and
`sections`.  Returns the caller context's new section. -/
def insert_barrier (acb : Option Nat) (cs : Nat) (s : BQ) : Nat × BQ :=
  match findMergeBarrier acb.isSome ((s.pending.getLast?).map Request.rid) cs
      s.secs with
  | some b =>
    let s1 := match acb with
      | some a => attachAcb s b.rid a
      | none => s
    (b.sec + 1, s1)
  | none =>
    let req := mkBarrier s.nextId cs
    let s1 := { s with
                pending := s.pending ++ [req]
                secs := s.secs ++ [req]
                queueSize := s.queueSize + 1
                nextId := s.nextId + 1 }
    let s2 := match acb with
      | some a => attachAcb s1 req.rid a
      | none => s1
    (cs + 1, s2)

/-- `blkqueue_barrier`: a no-op for write-through images, otherwise
`insert_barrier` without a waiter. -/
def blkqueue_barrier (cs : Nat) (s : BQ) : Nat × BQ :=
  if s.wbModes = false then
    (cs, s)
  else
    insert_barrier none cs s

/-- `blkqueue_aio_flush`: write-through images call `bdrv_aio_flush`
directly; otherwise a Barrier is inserted (or merged at the tail) with
the waiter `acbId` attached. -/
def blkqueue_aio_flush (acbId cs : Nat) (s : BQ) : Nat × BQ :=
  if s.wbModes = false then
    (cs, { s with log := s.log ++ [Ev.bdrvAioFlush] })
  else
    insert_barrier (some acbId) cs s

/-- `blkqueue_pop`: remove the head of the queue; a Barrier head is
also removed from the head of `sections`. -/
def blkqueue_pop (s : BQ) : Option Request × BQ :=
  match s.pending with
  | [] => (none, s)
  | r :: rest =>
    (some r, { s with
               pending := rest
               queueSize := s.queueSize - 1
               secs := if r.rtype = ReqType.barrier then s.secs.tail else s.secs })

/-- `blkqueue_fail_flush`: invoke and detach every waiter of every
queued request with error `ret`; when `keep` is false also remove the
requests themselves from the queue (and Barriers from `sections`).
Sets `bq->flushing = ret`.  (The C code adjusts neither `queue_size`
nor `num_waiting_for_cb` here; this is mirrored.) -/
def blkqueue_fail_flush (ret : Int) (keep : Bool) (s : BQ) : BQ :=
  let evs := (s.pending.map (fun r => r.acbs.map (fun a => Ev.cbFire a ret))).flatten
  let pending' := if keep then s.pending.map (fun r => { r with acbs := [] }) else []
  let secs' :=
    if keep then
      s.secs.map (fun b => if s.pending.any (fun r => r.rid = b.rid)
                           then { b with acbs := [] } else b)
    else
      s.secs.filter (fun b => ¬ s.pending.any (fun r => r.rid = b.rid))
  { s with
    pending := pending'
    secs := secs'
    flushing := ret
    log := s.log ++ evs }

/-- `blkqueue_process_request_cb`: completion of the request at the
head of `in_flight` (at most one request is ever in flight) with
backend result `ret`; `keep` is the value the error handler returns
for `ret < 0`.  On success a completed Write's bytes reach the backing
device.  The trailing `blkqueue_process_request` call is a separate
operation. -/
def blkqueue_process_request_cb (ret : Int) (keep : Bool) (s : BQ) : BQ :=
  match s.inflight with
  | [] => s
  | req :: restIF =>
    let s1 := { s with inflight := restIF, inFlightNum := s.inFlightNum - 1 }
    let s2 := if ret < 0 ∧ s1.errorRet ≠ -28 then { s1 with errorRet := ret } else s1
    let evs := req.acbs.map (fun a => Ev.cbFire a s2.errorRet)
    let s3 := { s2 with
                numWaiting := s2.numWaiting - req.acbs.length
                log := s2.log ++ evs }
    if ret < 0 then
      let s4 := blkqueue_fail_flush s3.errorRet keep s3
      if keep then
        let req' := { req with acbs := [] }
        { s4 with
          pending := req' :: s4.pending
          secs := if req'.rtype = ReqType.barrier then req' :: s4.secs else s4.secs
          errorRet := 0 }
      else
        s4
    else
      if req.rtype = ReqType.write then
        let d := fun a =>
          if req.offset ≤ a ∧ a < req.offset + req.size
          then req.buf.getD (a - req.offset) 0 else s3.disk a
        { s3 with disk := d }
      else
        s3

/-- `blkqueue_submit_request`: refuse (returning `-1`, state
unchanged) on a latched error, an empty queue, a request already in
flight, or a Barrier head while the queue is short and nobody is
waiting; otherwise pop the head into `in_flight` and dispatch it to
the backend (the dispatch is modelled as always succeeding). -/
def blkqueue_submit_request (s : BQ) : Int × BQ :=
  if s.errorRet ≠ 0 then
    (-1, s)
  else
    match s.pending with
    | [] => (-1, s)
    | req :: _ =>
      if s.inFlightNum > 0 then
        (-1, s)
      else if s.flushing = 0 ∧ s.numWaiting = 0 ∧
          req.rtype = ReqType.barrier ∧ s.queueSize < 50 then
        (-1, s)
      else
        let s1 := (blkqueue_pop s).2
        let ev := match req.rtype with
          | .write => Ev.bdrvAioPwrite req.offset req.size
          | .barrier => Ev.bdrvAioFlush
        (0, { s1 with
              inflight := s1.inflight ++ [req]
              inFlightNum := s1.inFlightNum + 1
              inFlightType := req.rtype
              log := s1.log ++ [ev] })

/-! ### Basic lemmas about the helpers -/

/-- Barrier test used throughout (`req->type == REQ_TYPE_BARRIER`). -/
def isB (r : Request) : Bool := r.rtype == ReqType.barrier

theorem findMergeBarrier_no_acb (last : Option Nat) (c : Nat) (l : List Request) :
    findMergeBarrier false last c l = findSectionGE l c := by
  induction l with
  | nil => rfl
  | cons b rest ih =>
    simp only [findMergeBarrier, findSectionGE, List.find?] at *
    by_cases h : c ≤ b.sec
    · simp [h]
    · simp [h, ih]

theorem exists_of_find?_eq_some {α : Type} {p : α → Bool} {l : List α} {b : α}
    (h : l.find? p = some b) :
    ∃ u v, l = u ++ b :: v ∧ p b = true ∧ ∀ x ∈ u, p x = false := by
  induction l with
  | nil => simp [List.find?] at h
  | cons a rest ih =>
    by_cases ha : p a = true
    · rw [List.find?_cons_of_pos _ ha] at h
      cases h
      exact ⟨[], rest, rfl, ha, by simp⟩
    · rw [List.find?_cons_of_neg _ ha] at h
      have ha' : p a = false := by simpa using ha
      obtain ⟨u, v, rfl, hpb, hu⟩ := ih h
      refine ⟨a :: u, v, rfl, hpb, ?_⟩
      intro x hx
      rcases List.mem_cons.mp hx with rfl | hx
      · exact ha'
      · exact hu x hx

theorem find?_eq_none_of_all {α : Type} {p : α → Bool} {l : List α}
    (h : ∀ x ∈ l, p x = false) : l.find? p = none := by
  induction l with
  | nil => rfl
  | cons a rest ih =>
    have := h a (by simp)
    simp only [List.find?, this]
    exact ih (fun x hx => h x (List.mem_cons_of_mem _ hx))

/-- Split a list along a split of its filtered sublist. -/
theorem filter_eq_append_cons {p : Request → Bool} {l u v : List Request}
    {b : Request} (h : l.filter p = u ++ b :: v) :
    ∃ l1 l2, l = l1 ++ b :: l2 ∧ l1.filter p = u ∧ l2.filter p = v := by
  induction l generalizing u with
  | nil =>
    rw [List.filter_nil] at h
    exact absurd h.symm (by simp)
  | cons a rest ih =>
    by_cases hp : p a = true
    · rw [List.filter_cons_of_pos hp] at h
      cases u with
      | nil =>
        rw [List.nil_append] at h
        have hab : a = b := (List.cons.injEq _ _ _ _ ▸ h).1
        have hv : rest.filter p = v := (List.cons.injEq _ _ _ _ ▸ h).2
        subst hab
        exact ⟨[], rest, rfl, by simp, hv⟩
      | cons u0 us =>
        rw [List.cons_append] at h
        have hau : a = u0 := (List.cons.injEq _ _ _ _ ▸ h).1
        have h' : rest.filter p = us ++ b :: v := (List.cons.injEq _ _ _ _ ▸ h).2
        obtain ⟨l1, l2, rfl, h1, h2⟩ := ih h'
        subst hau
        exact ⟨a :: l1, l2, rfl, by rw [List.filter_cons_of_pos hp, h1], h2⟩
    · have hp' : ¬ p a = true := hp
      rw [List.filter_cons_of_neg hp'] at h
      obtain ⟨l1, l2, rfl, h1, h2⟩ := ih h
      refine ⟨a :: l1, l2, rfl, ?_, h2⟩
      rw [List.filter_cons_of_neg hp', h1]

theorem insertBeforeRid_of_notin (l1 l2 : List Request) (b w : Request)
    (h : ∀ x ∈ l1, x.rid ≠ b.rid) :
    insertBeforeRid (l1 ++ b :: l2) b.rid w = l1 ++ w :: b :: l2 := by
  induction l1 with
  | nil => simp [insertBeforeRid]
  | cons a rest ih =>
    have ha : a.rid ≠ b.rid := h a (by simp)
    simp only [List.cons_append, insertBeforeRid, if_neg ha]
    exact congrArg (a :: ·) (ih (fun x hx => h x (List.mem_cons_of_mem _ hx)))

theorem insertBeforeRid_perm (l : List Request) (i : Nat) (w : Request) :
    (insertBeforeRid l i w).Perm (w :: l) := by
  induction l with
  | nil => simp [insertBeforeRid]
  | cons a rest ih =>
    simp only [insertBeforeRid]
    by_cases h : a.rid = i
    · simp [h]
    · rw [if_neg h]
      exact (ih.cons a).trans (List.Perm.swap w a rest)

theorem filter_insertBeforeRid {l : List Request} {i : Nat} {w : Request}
    {p : Request → Bool} (hw : p w = false) :
    (insertBeforeRid l i w).filter p = l.filter p := by
  induction l with
  | nil => simp [insertBeforeRid, hw]
  | cons a rest ih =>
    simp only [insertBeforeRid]
    by_cases h : a.rid = i
    · simp [h, List.filter_cons, hw]
    · rw [if_neg h]
      simp only [List.filter_cons, ih]

/-- Filtering commutes with a map that does not change the predicate. -/
theorem filter_map_pred_comm {l : List Request} {g : Request → Request}
    {p : Request → Bool} (hg : ∀ r, p (g r) = p r) :
    (l.map g).filter p = (l.filter p).map g := by
  induction l with
  | nil => rfl
  | cons a rest ih =>
    simp only [List.map_cons, List.filter_cons, hg a]
    by_cases h : p a
    · simp [h, ih]
    · simp [h, ih]

/-- Filtering absorbs a map that is the identity on the kept elements
and does not change the predicate. -/
theorem filter_map_id_on_pred {l : List Request} {g : Request → Request}
    {p : Request → Bool} (hg : ∀ r ∈ l, p (g r) = p r ∧ (p r = true → g r = r)) :
    (l.map g).filter p = l.filter p := by
  induction l with
  | nil => rfl
  | cons a rest ih =>
    have ha := hg a (by simp)
    have ih' := ih (fun r hr => hg r (List.mem_cons_of_mem _ hr))
    rw [List.map_cons]
    by_cases h : p a = true
    · rw [List.filter_cons_of_pos (ha.1.trans h), List.filter_cons_of_pos h,
        ha.2 h, ih']
    · have h' : ¬ p a = true := h
      rw [List.filter_cons_of_neg (fun hc => h' (ha.1 ▸ hc)),
        List.filter_cons_of_neg h', ih']

/-! ### Concrete states used by witnesses and counterexamples -/

/-- All-zero backing device. -/
def dZero : Nat → Nat := fun _ => 0

/-- A queue (in write-back mode) holding one Barrier of section 0:
the state right after a `barrier()` on a fresh queue. -/
def oneBarrierS : BQ := (blkqueue_barrier 0 (blkqueue_create true dZero)).2

/-- The Write request enqueued by `oneWriteS` below. -/
def oneWriteReq : Request := mkWrite 0 0 4 0 (fun _ => 7)

/-- A queue (in write-back mode) holding one pending Write: the state
right after a `pwrite` of 4 bytes on a fresh queue. -/
def oneWriteS : BQ :=
  (blkqueue_pwrite 8 0 0 4 (fun _ => 7) (blkqueue_create true dZero)).2

/-! ### C2: merging rule of `blkqueue_barrier` -/

/-- C2.  For a write-back queue, `barrier(ctx)` walks `sections` in
order; if some Barrier has section ≥ `ctx.section`, the first such one
is merged with: the state is unchanged (no new request) and the
context section becomes that Barrier's section + 1.  Otherwise a new
Barrier with section `ctx.section` is appended to the tail of both
`pending` and `sections` and the context section is incremented. -/
theorem c2_barrier_merge_rule (cs : Nat) (s : BQ) (hwb : s.wbModes = true) :
    (∀ b, findSectionGE s.secs cs = some b →
      blkqueue_barrier cs s = (b.sec + 1, s)) ∧
    (findSectionGE s.secs cs = none →
      blkqueue_barrier cs s =
        (cs + 1,
          { s with
            pending := s.pending ++ [mkBarrier s.nextId cs]
            secs := s.secs ++ [mkBarrier s.nextId cs]
            queueSize := s.queueSize + 1
            nextId := s.nextId + 1 })) := by
  constructor
  · intro b hb
    simp only [blkqueue_barrier, hwb, Bool.true_eq_false, if_false, insert_barrier,
      Option.isSome_none, findMergeBarrier_no_acb, hb]
  · intro hn
    simp only [blkqueue_barrier, hwb, Bool.true_eq_false, if_false, insert_barrier,
      Option.isSome_none, findMergeBarrier_no_acb, hn]

/-- Witness for C2 on a concrete state with a mergeable Barrier. -/
theorem c2_barrier_merge_rule_witness :
    oneBarrierS.wbModes = true ∧
    ((∀ b, findSectionGE oneBarrierS.secs 0 = some b →
        blkqueue_barrier 0 oneBarrierS = (b.sec + 1, oneBarrierS)) ∧
      (findSectionGE oneBarrierS.secs 0 = none →
        blkqueue_barrier 0 oneBarrierS =
          (0 + 1,
            { oneBarrierS with
              pending := oneBarrierS.pending ++ [mkBarrier oneBarrierS.nextId 0]
              secs := oneBarrierS.secs ++ [mkBarrier oneBarrierS.nextId 0]
              queueSize := oneBarrierS.queueSize + 1
              nextId := oneBarrierS.nextId + 1 }))) :=
  ⟨rfl, c2_barrier_merge_rule 0 oneBarrierS rfl⟩

/-! ### C4: the submission guard of `blkqueue_submit_request` -/

/-- C4.  With a non-empty queue (head `req`) on a write-back image,
`blkqueue_submit_request` refuses — returning -1 with the state
untouched — exactly when an error is latched, or a request is in
flight, or the head is a Barrier while the queue is short, nobody is
flushing and nobody waits for a callback.  Otherwise it pops the head
into `in_flight` and dispatches it: a Write as an asynchronous backend
write, a Barrier as an asynchronous backend flush. -/
theorem c4_submit_guard (s : BQ) (req : Request) (rest : List Request)
    (hp : s.pending = req :: rest) (hwb : s.wbModes = true) :
    (((blkqueue_submit_request s).1 = -1 ∧ (blkqueue_submit_request s).2 = s) ↔
      (s.errorRet ≠ 0 ∨ 0 < s.inFlightNum ∨
        (req.rtype = ReqType.barrier ∧ s.queueSize < 50 ∧ s.flushing = 0 ∧
          s.numWaiting = 0))) ∧
    ((blkqueue_submit_request s).1 = 0 →
      (blkqueue_submit_request s).2.pending = rest ∧
      (blkqueue_submit_request s).2.inflight = s.inflight ++ [req] ∧
      (blkqueue_submit_request s).2.inFlightNum = s.inFlightNum + 1 ∧
      (blkqueue_submit_request s).2.secs =
        (if req.rtype = ReqType.barrier then s.secs.tail else s.secs) ∧
      (blkqueue_submit_request s).2.log = s.log ++
        [match req.rtype with
          | .write => Ev.bdrvAioPwrite req.offset req.size
          | .barrier => Ev.bdrvAioFlush]) := by
  by_cases he : s.errorRet ≠ 0
  · constructor
    · simp only [blkqueue_submit_request, if_pos he]
      simp [he]
    · simp only [blkqueue_submit_request, if_pos he]
      intro h
      exact absurd h (by norm_num)
  · by_cases hi : s.inFlightNum > 0
    · constructor
      · simp only [blkqueue_submit_request, if_neg he, hp, if_pos hi]
        simp [hi]
      · simp only [blkqueue_submit_request, if_neg he, hp, if_pos hi]
        intro h
        exact absurd h (by norm_num)
    · by_cases hb : s.flushing = 0 ∧ s.numWaiting = 0 ∧
          req.rtype = ReqType.barrier ∧ s.queueSize < 50
      · constructor
        · simp only [blkqueue_submit_request, if_neg he, hp, if_neg hi, if_pos hb]
          constructor
          · intro _
            right; right
            exact ⟨hb.2.2.1, hb.2.2.2, hb.1, hb.2.1⟩
          · intro _
            simp
        · simp only [blkqueue_submit_request, if_neg he, hp, if_neg hi, if_pos hb]
          intro h
          exact absurd h (by norm_num)
      · have he' : s.errorRet = 0 := by simpa using he
        have hi' : s.inFlightNum = 0 := by omega
        constructor
        · simp only [blkqueue_submit_request, if_neg he, hp, if_neg hi, if_neg hb]
          constructor
          · intro h
            exact absurd h.1 (by norm_num)
          · intro h
            rcases h with h | h | h
            · exact absurd he' h
            · omega
            · exact absurd ⟨h.2.2.1, h.2.2.2, h.1, h.2.1⟩ hb
        · simp only [blkqueue_submit_request, if_neg he, hp, if_neg hi, if_neg hb]
          intro _
          simp [blkqueue_pop, hp]

/-- Witness for C4: a queue with one pending Write submits it. -/
theorem c4_submit_guard_witness :
    oneWriteS.pending = oneWriteReq :: [] ∧ oneWriteS.wbModes = true ∧
    ((((blkqueue_submit_request oneWriteS).1 = -1 ∧
        (blkqueue_submit_request oneWriteS).2 = oneWriteS) ↔
      (oneWriteS.errorRet ≠ 0 ∨ 0 < oneWriteS.inFlightNum ∨
        (oneWriteReq.rtype = ReqType.barrier ∧ oneWriteS.queueSize < 50 ∧
          oneWriteS.flushing = 0 ∧ oneWriteS.numWaiting = 0))) ∧
    ((blkqueue_submit_request oneWriteS).1 = 0 →
      (blkqueue_submit_request oneWriteS).2.pending = [] ∧
      (blkqueue_submit_request oneWriteS).2.inflight =
        oneWriteS.inflight ++ [oneWriteReq] ∧
      (blkqueue_submit_request oneWriteS).2.inFlightNum =
        oneWriteS.inFlightNum + 1 ∧
      (blkqueue_submit_request oneWriteS).2.secs =
        (if oneWriteReq.rtype = ReqType.barrier then oneWriteS.secs.tail
          else oneWriteS.secs) ∧
      (blkqueue_submit_request oneWriteS).2.log = oneWriteS.log ++
        [match oneWriteReq.rtype with
          | .write => Ev.bdrvAioPwrite oneWriteReq.offset oneWriteReq.size
          | .barrier => Ev.bdrvAioFlush])) :=
  ⟨by decide, rfl, c4_submit_guard oneWriteS oneWriteReq [] (by decide) rfl⟩

/-! ### C8: consecutive barriers are not idempotent -/

/-- C8 counterexample.  On a fresh write-back queue, a `barrier()`
appends a Barrier (queue length 1); a second `barrier()` immediately
after, in the same context with no intervening operations, allocates a
second Barrier request (queue length 2): the merge test compares the
existing Barrier's section 0 against the already advanced context
section 1 and fails, so the claim's "neither allocates a new Barrier
request" is false. -/
theorem c8_counterexample :
    (blkqueue_barrier 0 (blkqueue_create true dZero)).2.pending.length = 1 ∧
    (blkqueue_barrier 0 (blkqueue_create true dZero)).1 = 1 ∧
    (blkqueue_barrier (blkqueue_barrier 0 (blkqueue_create true dZero)).1
        (blkqueue_barrier 0 (blkqueue_create true dZero)).2).2.pending.length = 2 ∧
    (blkqueue_barrier (blkqueue_barrier 0 (blkqueue_create true dZero)).1
        (blkqueue_barrier 0 (blkqueue_create true dZero)).2).1 = 2 := by
  refine ⟨rfl, rfl, rfl, rfl⟩

/-- C8 amended.  When no Barrier with section ≥ `ctx.section` exists,
a `barrier()` appends a fresh Barrier and advances the section by one;
the immediately following `barrier()` in the same context does NOT
merge with it (the context section now exceeds that Barrier's
section): it appends a second fresh Barrier and again advances the
section by exactly one. -/
theorem c8_barrier_not_idempotent (cs : Nat) (s : BQ) (hwb : s.wbModes = true)
    (hnone : findSectionGE s.secs cs = none) :
    (blkqueue_barrier cs s).1 = cs + 1 ∧
    (blkqueue_barrier cs s).2.pending = s.pending ++ [mkBarrier s.nextId cs] ∧
    (blkqueue_barrier (blkqueue_barrier cs s).1 (blkqueue_barrier cs s).2).1 =
      cs + 2 ∧
    (blkqueue_barrier (blkqueue_barrier cs s).1
        (blkqueue_barrier cs s).2).2.pending =
      s.pending ++ [mkBarrier s.nextId cs, mkBarrier (s.nextId + 1) (cs + 1)] := by
  have h1 := (c2_barrier_merge_rule cs s hwb).2 hnone
  have hall : ∀ x ∈ s.secs, ¬ (cs ≤ x.sec) := by
    intro x hx
    have := List.find?_eq_none.mp hnone x hx
    simpa using this
  have hnone2 : findSectionGE ((blkqueue_barrier cs s).2).secs (cs + 1) = none := by
    rw [h1]
    apply List.find?_eq_none.mpr
    intro x hx
    simp only [List.mem_append, List.mem_singleton] at hx
    rcases hx with hx | rfl
    · have := hall x hx
      simp only [decide_eq_true_eq]
      omega
    · simp only [mkBarrier, decide_eq_true_eq]
      omega
  have hwb2 : ((blkqueue_barrier cs s).2).wbModes = true := by
    rw [h1]
    exact hwb
  have h2 := (c2_barrier_merge_rule (cs + 1) ((blkqueue_barrier cs s).2) hwb2).2
    hnone2
  have hfst : (blkqueue_barrier cs s).1 = cs + 1 := by rw [h1]
  refine ⟨hfst, by rw [h1], ?_, ?_⟩
  · rw [hfst, h2]
  · rw [hfst, h2, h1]
    simp

/-- Witness for the amended C8 on a fresh queue. -/
theorem c8_barrier_not_idempotent_witness :
    (blkqueue_create true dZero).wbModes = true ∧
    findSectionGE (blkqueue_create true dZero).secs 0 = none ∧
    ((blkqueue_barrier 0 (blkqueue_create true dZero)).1 = 0 + 1 ∧
      (blkqueue_barrier 0 (blkqueue_create true dZero)).2.pending =
        (blkqueue_create true dZero).pending ++
          [mkBarrier (blkqueue_create true dZero).nextId 0] ∧
      (blkqueue_barrier (blkqueue_barrier 0 (blkqueue_create true dZero)).1
          (blkqueue_barrier 0 (blkqueue_create true dZero)).2).1 = 0 + 2 ∧
      (blkqueue_barrier (blkqueue_barrier 0 (blkqueue_create true dZero)).1
          (blkqueue_barrier 0 (blkqueue_create true dZero)).2).2.pending =
        (blkqueue_create true dZero).pending ++
          [mkBarrier (blkqueue_create true dZero).nextId 0,
            mkBarrier ((blkqueue_create true dZero).nextId + 1) (0 + 1)]) :=
  ⟨rfl, rfl, c8_barrier_not_idempotent 0 (blkqueue_create true dZero) rfl rfl⟩

/-! ### C9: the write-through bypass -/

/-- C9 counterexample.  On a write-through image, `blkqueue_barrier`
returns success without calling the backend at all: the observation
trace stays empty, falsifying the claim's "barrier likewise goes to
the backend directly". -/
theorem c9_counterexample :
    (blkqueue_barrier 0 (blkqueue_create false dZero)).2.log = [] ∧
    (blkqueue_barrier 0 (blkqueue_create false dZero)).1 = 0 ∧
    (blkqueue_barrier 0 (blkqueue_create false dZero)).2 =
      blkqueue_create false dZero :=
  ⟨rfl, rfl, rfl⟩

/-- C9 amended.  On a write-through image all three operations leave
`pending`, `in_flight` and `sections` untouched and allocate no
request: `pwrite` performs a synchronous backend write (`bdrv_pwrite`,
updating the device bytes at once), `aio_flush` issues an asynchronous
backend flush (`bdrv_aio_flush`), and `barrier` is a no-op returning
success without any backend call. -/
theorem c9_writethrough_bypass (fuel cs off sz acbId : Nat) (nb : Nat → Nat)
    (s : BQ) (hwt : s.wbModes = false) :
    blkqueue_pwrite (fuel + 1) cs off sz nb s =
      (cs, { s with
             disk := fun a => if off ≤ a ∧ a < off + sz then nb a else s.disk a
             log := s.log ++ [Ev.bdrvPwrite off sz] }) ∧
    blkqueue_barrier cs s = (cs, s) ∧
    blkqueue_aio_flush acbId cs s =
      (cs, { s with log := s.log ++ [Ev.bdrvAioFlush] }) := by
  refine ⟨?_, ?_, ?_⟩
  · simp [blkqueue_pwrite, hwt]
  · simp [blkqueue_barrier, hwt]
  · simp [blkqueue_aio_flush, hwt]

/-- Witness for the amended C9 on a concrete write-through queue. -/
theorem c9_writethrough_bypass_witness :
    (blkqueue_create false dZero).wbModes = false ∧
    (blkqueue_pwrite (3 + 1) 0 5 2 (fun _ => 9) (blkqueue_create false dZero) =
      (0, { blkqueue_create false dZero with
            disk := fun a => if 5 ≤ a ∧ a < 5 + 2 then (fun _ => 9 : Nat → Nat) a
                     else (blkqueue_create false dZero).disk a
            log := (blkqueue_create false dZero).log ++ [Ev.bdrvPwrite 5 2] }) ∧
    blkqueue_barrier 0 (blkqueue_create false dZero) =
      (0, blkqueue_create false dZero) ∧
    blkqueue_aio_flush 7 0 (blkqueue_create false dZero) =
      (0, { blkqueue_create false dZero with
            log := (blkqueue_create false dZero).log ++ [Ev.bdrvAioFlush] })) :=
  ⟨rfl, c9_writethrough_bypass 3 0 5 2 7 (fun _ => 9)
    (blkqueue_create false dZero) rfl⟩

/-! ### C7: tail-only merging of `blkqueue_aio_flush` -/

theorem updRid_notin {l : List Request} {i : Nat} (g : Request → Request)
    (h : ∀ x ∈ l, x.rid ≠ i) : updRid l i g = l := by
  induction l with
  | nil => rfl
  | cons a rest ih =>
    simp only [updRid, List.map_cons, if_neg (h a (by simp))]
    rw [show rest.map (fun r => if r.rid = i then g r else r) =
      updRid rest i g from rfl, ih (fun x hx => h x (List.mem_cons_of_mem _ hx))]

theorem updRid_concat {l : List Request} {b : Request} (g : Request → Request)
    (h : ∀ x ∈ l, x.rid ≠ b.rid) :
    updRid (l ++ [b]) b.rid g = l ++ [g b] := by
  simp only [updRid, List.map_append, List.map_cons, List.map_nil, if_pos rfl]
  rw [show (l.map (fun r => if r.rid = b.rid then g r else r)) =
    updRid l b.rid g from rfl, updRid_notin g h]
  simp

theorem findMergeBarrier_tail_some {u : List Request} {b : Request} {c : Nat}
    (hu : ∀ x ∈ u, c ≤ x.sec → x.rid ≠ b.rid) (hb : c ≤ b.sec) :
    findMergeBarrier true (some b.rid) c (u ++ [b]) = some b := by
  induction u with
  | nil =>
    simp only [List.nil_append, findMergeBarrier, if_pos hb]
    simp
  | cons a rest ih =>
    by_cases ha : c ≤ a.sec
    · have hab : a.rid ≠ b.rid := hu a (by simp) ha
      simp only [List.cons_append, findMergeBarrier, if_pos ha]
      rw [if_pos (by exact ⟨by trivial, by simpa using Ne.symm hab⟩)]
      exact ih (fun x hx hc => hu x (List.mem_cons_of_mem _ hx) hc)
    · simp only [List.cons_append, findMergeBarrier, if_neg ha]
      exact ih (fun x hx hc => hu x (List.mem_cons_of_mem _ hx) hc)

theorem findMergeBarrier_none {lst : List Request} {pl : Option Nat} {c : Nat}
    (h : ∀ x ∈ lst, c ≤ x.sec → pl ≠ some x.rid) :
    findMergeBarrier true pl c lst = none := by
  induction lst with
  | nil => rfl
  | cons a rest ih =>
    by_cases ha : c ≤ a.sec
    · simp only [findMergeBarrier, if_pos ha]
      rw [if_pos (by simp [h a (by simp) ha])]
      exact ih (fun x hx hc => h x (List.mem_cons_of_mem _ hx) hc)
    · simp only [findMergeBarrier, if_neg ha]
      exact ih (fun x hx hc => h x (List.mem_cons_of_mem _ hx) hc)

/-- C7 amended.  An `aio_flush` on a write-back queue follows the
barrier-merging rule but only ever merges with a Barrier that is the
very last entry of `pending`; whether it merges (tail Barrier with
section ≥ the context's) or appends a fresh Barrier, the new
FlushWaiter ends up attached to the last entry of `pending`, which is
a Barrier — so the callback fires only after everything queued ahead
has drained.  (The claim's scenario is wrong: with
`pending = [Write; Barrier]` the Barrier IS the tail entry, and an
`aio_flush` whose context section is ≤ its section does merge with it;
see the counterexample.) -/
theorem c7_aio_flush_tail_only (acbId cs : Nat) (s : BQ)
    (hwb : s.wbModes = true)
    (hI1 : s.secs = s.pending.filter isB)
    (hnd : (s.pending.map Request.rid).Nodup)
    (hbd : ∀ r ∈ s.pending, r.rid < s.nextId) :
    (∀ l b, s.pending = l ++ [b] → b.rtype = ReqType.barrier → cs ≤ b.sec →
      blkqueue_aio_flush acbId cs s =
        (b.sec + 1,
          { s with
            pending := l ++ [{ b with acbs := acbId :: b.acbs }]
            secs := updRid s.secs b.rid (fun r => { r with acbs := acbId :: r.acbs })
            numWaiting := s.numWaiting + 1 })) ∧
    ((∀ l b, s.pending = l ++ [b] → ¬(b.rtype = ReqType.barrier ∧ cs ≤ b.sec)) →
      (blkqueue_aio_flush acbId cs s).1 = cs + 1 ∧
      (blkqueue_aio_flush acbId cs s).2.pending =
        s.pending ++ [{ mkBarrier s.nextId cs with acbs := [acbId] }]) ∧
    (∀ l q, (blkqueue_aio_flush acbId cs s).2.pending = l ++ [q] →
      acbId ∈ q.acbs ∧ q.rtype = ReqType.barrier) := by
  have hdisj : ∀ l b, s.pending = l ++ [b] → ∀ x ∈ l, x.rid ≠ b.rid := by
    intro l b hp x hx
    rw [hp, List.map_append, List.map_cons, List.map_nil] at hnd
    have := (List.nodup_append.mp hnd).2.2
    intro hc
    exact this (List.mem_map_of_mem Request.rid hx) (by simp [hc])
  have hmerge : ∀ l b, s.pending = l ++ [b] → b.rtype = ReqType.barrier →
      cs ≤ b.sec →
      blkqueue_aio_flush acbId cs s =
        (b.sec + 1,
          { s with
            pending := l ++ [{ b with acbs := acbId :: b.acbs }]
            secs := updRid s.secs b.rid (fun r => { r with acbs := acbId :: r.acbs })
            numWaiting := s.numWaiting + 1 }) := by
    intro l b hp hbar hsec
    have hlast : s.pending.getLast? = some b := by
      rw [hp]
      exact List.getLast?_concat l
    have hsecs : s.secs = l.filter isB ++ [b] := by
      rw [hI1, hp, List.filter_append]
      simp [List.filter_cons, isB, hbar]
    have hfind : findMergeBarrier true (some b.rid) cs s.secs = some b := by
      rw [hsecs]
      exact findMergeBarrier_tail_some
        (fun x hx _ => hdisj l b hp x (List.mem_of_mem_filter hx)) hsec
    have hpend : updRid s.pending b.rid
        (fun r => { r with acbs := acbId :: r.acbs }) =
        l ++ [{ b with acbs := acbId :: b.acbs }] := by
      rw [hp, updRid_concat _ (hdisj l b hp)]
    simp only [blkqueue_aio_flush, hwb, Bool.true_eq_false, if_false,
      insert_barrier, Option.isSome_some, hlast]
    rw [show Option.map Request.rid (some b) = some b.rid from rfl, hfind]
    simp only [attachAcb, hpend, hwb]
  have happend : (∀ l b, s.pending = l ++ [b] →
      ¬(b.rtype = ReqType.barrier ∧ cs ≤ b.sec)) →
      (blkqueue_aio_flush acbId cs s).1 = cs + 1 ∧
      (blkqueue_aio_flush acbId cs s).2.pending =
        s.pending ++ [{ mkBarrier s.nextId cs with acbs := [acbId] }] := by
    intro hno
    have hfind : findMergeBarrier true ((s.pending.getLast?).map Request.rid) cs
        s.secs = none := by
      rcases List.eq_nil_or_concat s.pending with hnil | ⟨l, b, hp⟩
      · rw [hI1, hnil]
        rfl
      · rw [List.concat_eq_append] at hp
        rw [hp, List.getLast?_concat]
        apply findMergeBarrier_none
        intro x hx hcx
        rw [hI1, hp, List.filter_append] at hx
        rcases List.mem_append.mp hx with hx | hx
        · have hxb := hdisj l b hp x (List.mem_of_mem_filter hx)
          intro hc
          rw [show Option.map Request.rid (some b) = some b.rid from rfl] at hc
          exact hxb (Option.some_inj.mp hc).symm
        · simp only [List.filter_cons, List.filter_nil] at hx
          by_cases hbb : isB b
          · rw [if_pos hbb] at hx
            have : x = b := by simpa using hx
            subst this
            exact absurd ⟨by simpa [isB] using hbb, hcx⟩ (hno l x hp)
          · rw [if_neg hbb] at hx
            simp at hx
    have hne : ∀ x ∈ s.pending, x.rid ≠ (mkBarrier s.nextId cs).rid := by
      intro x hx
      exact Nat.ne_of_lt (hbd x hx)
    constructor
    · simp only [blkqueue_aio_flush, hwb, Bool.true_eq_false, if_false,
        insert_barrier, Option.isSome_some]
      rw [hfind]
    · simp only [blkqueue_aio_flush, hwb, Bool.true_eq_false, if_false,
        insert_barrier, Option.isSome_some]
      rw [hfind]
      simp only [attachAcb]
      rw [updRid_concat _ hne]
      simp [mkBarrier]
  refine ⟨hmerge, happend, ?_⟩
  intro l q hq
  by_cases hex : ∃ l' b, s.pending = l' ++ [b] ∧ b.rtype = ReqType.barrier ∧
      cs ≤ b.sec
  · obtain ⟨l', b, hp, hbar, hsec⟩ := hex
    rw [hmerge l' b hp hbar hsec] at hq
    have hq' : l' ++ [{ b with acbs := acbId :: b.acbs }] = l ++ [q] := hq
    have h1 := congrArg List.getLast? hq'
    rw [List.getLast?_concat, List.getLast?_concat] at h1
    have hqb : q = { b with acbs := acbId :: b.acbs } := (Option.some_inj.mp h1).symm
    subst hqb
    exact ⟨by simp, hbar⟩
  · have hno : ∀ l' b, s.pending = l' ++ [b] →
        ¬(b.rtype = ReqType.barrier ∧ cs ≤ b.sec) := by
      intro l' b hp hc
      exact hex ⟨l', b, hp, hc.1, hc.2⟩
    rw [(happend hno).2] at hq
    have h1 := congrArg List.getLast? hq
    rw [List.getLast?_concat, List.getLast?_concat] at h1
    have hqb : q = { mkBarrier s.nextId cs with acbs := [acbId] } :=
      (Option.some_inj.mp h1).symm
    subst hqb
    exact ⟨by simp, rfl⟩

/-- C7 counterexample.  In the claim's scenario `pending = [Write;
Barrier]` the Barrier IS the very last entry of `pending`, so an
`aio_flush` from a context with section 0 merges with it — no new
request is allocated (`pending` keeps length 2, `nextId` does not
move) and the waiter lands on that existing Barrier — contradicting
the scenario's "aio_flush must not merge with that existing
Barrier". -/
theorem c7_counterexample :
    (blkqueue_barrier 0 oneWriteS).2.pending.length = 2 ∧
    (blkqueue_aio_flush 7 0 (blkqueue_barrier 0 oneWriteS).2).2.pending.length
      = 2 ∧
    ((blkqueue_aio_flush 7 0
        (blkqueue_barrier 0 oneWriteS).2).2.pending.getLast?).map Request.acbs
      = some [7] ∧
    (blkqueue_aio_flush 7 0 (blkqueue_barrier 0 oneWriteS).2).2.nextId =
      (blkqueue_barrier 0 oneWriteS).2.nextId := by
  refine ⟨rfl, rfl, rfl, rfl⟩

/-- Witness for the amended C7 on a concrete one-Barrier queue. -/
theorem c7_aio_flush_tail_only_witness :
    oneBarrierS.wbModes = true ∧
    oneBarrierS.secs = oneBarrierS.pending.filter isB ∧
    (oneBarrierS.pending.map Request.rid).Nodup ∧
    (∀ r ∈ oneBarrierS.pending, r.rid < oneBarrierS.nextId) ∧
    ((∀ l b, oneBarrierS.pending = l ++ [b] → b.rtype = ReqType.barrier →
        0 ≤ b.sec →
        blkqueue_aio_flush 9 0 oneBarrierS =
          (b.sec + 1,
            { oneBarrierS with
              pending := l ++ [{ b with acbs := 9 :: b.acbs }]
              secs := updRid oneBarrierS.secs b.rid
                (fun r => { r with acbs := 9 :: r.acbs })
              numWaiting := oneBarrierS.numWaiting + 1 })) ∧
      ((∀ l b, oneBarrierS.pending = l ++ [b] →
          ¬(b.rtype = ReqType.barrier ∧ 0 ≤ b.sec)) →
        (blkqueue_aio_flush 9 0 oneBarrierS).1 = 0 + 1 ∧
        (blkqueue_aio_flush 9 0 oneBarrierS).2.pending =
          oneBarrierS.pending ++
            [{ mkBarrier oneBarrierS.nextId 0 with acbs := [9] }]) ∧
      (∀ l q, (blkqueue_aio_flush 9 0 oneBarrierS).2.pending = l ++ [q] →
        9 ∈ q.acbs ∧ q.rtype = ReqType.barrier)) :=
  ⟨rfl, by decide, by decide, by decide,
    c7_aio_flush_tail_only 9 0 oneBarrierS rfl (by decide) (by decide) (by decide)⟩

/-! ### C6: the fail-fast error policy -/

theorem filter_not_any_nil {pend sec : List Request}
    (h : ∀ b ∈ sec, b ∈ pend) :
    sec.filter (fun b => ¬ pend.any (fun r => r.rid = b.rid)) = [] := by
  induction sec with
  | nil => rfl
  | cons b rest ih =>
    have hb : b ∈ pend := h b (by simp)
    have hany : pend.any (fun r => r.rid = b.rid) = true := by
      apply List.any_eq_true.mpr
      exact ⟨b, hb, by simp⟩
    rw [List.filter_cons_of_neg (by simp [hany])]
    exact ih (fun x hx => h x (List.mem_cons_of_mem _ hx))

/-- C6 amended.  When a completion reports `ret < 0` and the error
handler returns `keep_queue = false`, every FlushWaiter attached to
any request still in `pending` is invoked with the latched error and
removed — and the requests themselves, Writes and Barriers alike, are
ALSO removed from `pending` (and `sections`), leaving both empty; the
error stays latched in `error_ret`.  Only with `keep_queue = true` do
the queued Writes remain. -/
theorem c6_fail_fast (ret : Int) (s : BQ) (req : Request) (rest : List Request)
    (hin : s.inflight = req :: rest) (hret : ret < 0)
    (hI1 : s.secs = s.pending.filter isB) :
    (blkqueue_process_request_cb ret false s).pending = [] ∧
    (blkqueue_process_request_cb ret false s).secs = [] ∧
    (blkqueue_process_request_cb ret false s).errorRet =
      (if s.errorRet ≠ -28 then ret else s.errorRet) ∧
    (blkqueue_process_request_cb ret false s).log = s.log ++
      (req.acbs.map (fun a =>
        Ev.cbFire a (if s.errorRet ≠ -28 then ret else s.errorRet)) ++
      (s.pending.map (fun r => r.acbs.map (fun a =>
        Ev.cbFire a (if s.errorRet ≠ -28 then ret else s.errorRet)))).flatten) := by
  have hmem : ∀ b ∈ s.secs, b ∈ s.pending := by
    intro b hb
    rw [hI1] at hb
    exact List.mem_of_mem_filter hb
  by_cases he : s.errorRet ≠ -28
  · simp [blkqueue_process_request_cb, hin, blkqueue_fail_flush, hret, he,
      filter_not_any_nil hmem]
    intro a ha
    exact ⟨a, hmem a ha, rfl⟩
  · have he' : s.errorRet = -28 := by simpa using he
    simp [blkqueue_process_request_cb, hin, blkqueue_fail_flush, hret, he',
      filter_not_any_nil hmem]
    intro a ha
    exact ⟨a, hmem a ha, rfl⟩

/-- Intermediate states of the C6 counterexample: a first Write is
already in flight, a second Write is still pending, and the in-flight
request completes with an error while the handler says
`keep_queue = false`. -/
def c6midS : BQ :=
  (blkqueue_pwrite 8 0 8 4 (fun _ => 9) (blkqueue_submit_request oneWriteS).2).2

/-- C6 counterexample.  Concretely: `pending` holds one Write before
the failing completion, and is EMPTY afterwards — with
`keep_queue = false` the code removes the queued Writes, they do not
"remain in pending so that a later explicit flush can drop them". -/
theorem c6_counterexample :
    c6midS.pending.length = 1 ∧
    c6midS.inflight.length = 1 ∧
    (blkqueue_process_request_cb (-5) false c6midS).pending = [] ∧
    (blkqueue_process_request_cb (-5) false c6midS).errorRet = -5 := by
  refine ⟨rfl, rfl, rfl, rfl⟩

/-- Witness for the amended C6 at the same concrete state. -/
theorem c6_fail_fast_witness :
    c6midS.inflight = oneWriteReq
      :: [] ∧
    (-5 : Int) < 0 ∧
    c6midS.secs = c6midS.pending.filter isB ∧
    ((blkqueue_process_request_cb (-5) false c6midS).pending = [] ∧
      (blkqueue_process_request_cb (-5) false c6midS).secs = [] ∧
      (blkqueue_process_request_cb (-5) false c6midS).errorRet =
        (if c6midS.errorRet ≠ -28 then (-5 : Int) else c6midS.errorRet) ∧
      (blkqueue_process_request_cb (-5) false c6midS).log = c6midS.log ++
        ((oneWriteReq).acbs.map (fun a =>
          Ev.cbFire a (if c6midS.errorRet ≠ -28 then (-5 : Int)
            else c6midS.errorRet)) ++
        (c6midS.pending.map (fun r => r.acbs.map (fun a =>
          Ev.cbFire a (if c6midS.errorRet ≠ -28 then (-5 : Int)
            else c6midS.errorRet)))).flatten)) :=
  ⟨by decide, by decide, by decide,
    c6_fail_fast (-5) c6midS (oneWriteReq)
      [] (by decide) (by decide) (by decide)⟩

/-! ### The structural queue invariant and its preservation -/

/-- Structural well-formedness of a queue state: I1 (`sections` is
exactly the Barrier sublist of `pending`), uniqueness and freshness of
node ids, and the in-flight bookkeeping. -/
def QInv (s : BQ) : Prop :=
  s.secs = s.pending.filter isB ∧
  ((s.pending ++ s.inflight).map Request.rid).Nodup ∧
  (∀ r ∈ s.pending ++ s.inflight, r.rid < s.nextId) ∧
  s.inFlightNum = s.inflight.length ∧
  s.inflight.length ≤ 1

theorem map_rid_updRid {l : List Request} {i : Nat} {g : Request → Request}
    (hg : ∀ r, (g r).rid = r.rid) :
    (updRid l i g).map Request.rid = l.map Request.rid := by
  induction l with
  | nil => rfl
  | cons a rest ih =>
    simp only [updRid, List.map_cons] at *
    by_cases h : a.rid = i
    · rw [if_pos h, hg a, ih]
    · rw [if_neg h, ih]

theorem rid_entries_write {st : BQ} {i : Nat}
    (hnd : ((st.pending ++ st.inflight).map Request.rid).Nodup)
    (hf : (findRid st.pending i).rtype = ReqType.write) :
    ∀ r ∈ st.pending, r.rid = i → isB r = false := by
  intro r hr hrid
  have hndp : (st.pending.map Request.rid).Nodup := by
    rw [List.map_append] at hnd
    exact (List.nodup_append.mp hnd).1
  cases hfind : st.pending.find? (fun x => x.rid = i) with
  | none =>
    have := List.find?_eq_none.mp hfind r hr
    simp [hrid] at this
  | some r0 =>
    have hr0m : r0 ∈ st.pending := List.mem_of_find?_eq_some hfind
    have hr0i : r0.rid = i := by
      have := List.find?_some hfind
      simpa using this
    have hrr0 : r = r0 :=
      List.inj_on_of_nodup_map hndp hr hr0m (by rw [hrid, hr0i])
    have : (findRid st.pending i).rtype = r0.rtype := by
      simp [findRid, hfind]
    rw [hf] at this
    rw [hrr0]
    simp [isB, ← this]

theorem overwriteBuf_rid (r : Request) (dst len : Nat) (nb : Nat → Nat) :
    (overwriteBuf r dst len nb).rid = r.rid := rfl

theorem overwriteBuf_rtype (r : Request) (dst len : Nat) (nb : Nat → Nat) :
    (overwriteBuf r dst len nb).rtype = r.rtype := rfl

theorem updBuf_qinv {st : BQ} {i dst len : Nat} {nb : Nat → Nat}
    (hq : QInv st) (hf : (findRid st.pending i).rtype = ReqType.write) :
    QInv (updBuf st i dst len nb) := by
  obtain ⟨h1, h2, h3, h4, h5⟩ := hq
  have hw := rid_entries_write h2 hf
  refine ⟨?_, ?_, ?_, h4, h5⟩
  · show st.secs = (updRid st.pending i _).filter isB
    rw [h1]
    symm
    apply filter_map_id_on_pred
    intro r hr
    constructor
    · by_cases h : r.rid = i
      · rw [if_pos h]
        simp [isB, overwriteBuf_rtype]
      · rw [if_neg h]
    · intro hb
      by_cases h : r.rid = i
      · exact absurd hb (by simp [hw r hr h])
      · rw [if_neg h]
  · show ((updRid st.pending i _ ++ st.inflight).map Request.rid).Nodup
    rw [List.map_append, map_rid_updRid (fun r => overwriteBuf_rid r dst len nb),
      ← List.map_append]
    exact h2
  · show ∀ r ∈ updRid st.pending i _ ++ st.inflight, r.rid < st.nextId
    intro r hr
    rcases List.mem_append.mp hr with hr | hr
    · simp only [updRid] at hr
      obtain ⟨x, hx, rfl⟩ := List.mem_map.mp hr
      by_cases h : x.rid = i
      · rw [if_pos h, overwriteBuf_rid]
        exact h3 x (List.mem_append.mpr (Or.inl hx))
      · rw [if_neg h]
        exact h3 x (List.mem_append.mpr (Or.inl hx))
    · exact h3 r (List.mem_append.mpr (Or.inr hr))

theorem scanWrite_qinv (recFn : Nat → Nat → Nat → BQ → Nat × BQ)
    (hrec : ∀ cs o z st, QInv st → QInv (recFn cs o z st).2)
    (minSec : Nat) (nb : Nat → Nat) :
    ∀ (L : List Nat) (cs off sz : Nat) (st : BQ), QInv st →
      QInv (scanWrite recFn minSec nb L cs off sz st).st := by
  intro L
  induction L with
  | nil => exact fun _ _ _ _ h => h
  | cons i rest ih =>
    intro cs off sz st hst
    simp only [scanWrite]
    by_cases h1 : (findRid st.pending i).rtype ≠ ReqType.write
    · rw [if_pos h1]
      exact ih _ _ _ _ hst
    · rw [if_neg h1]
      have hf : (findRid st.pending i).rtype = ReqType.write := by
        simpa using h1
      by_cases h2 : (findRid st.pending i).sec < minSec
      · rw [if_pos h2]
        exact ih _ _ _ _ hst
      · rw [if_neg h2]
        split_ifs <;>
          first
          | exact updBuf_qinv hst hf
          | exact ih _ _ _ _ hst
          | exact ih _ _ _ _ (updBuf_qinv hst hf)
          | exact ih _ _ _ _ (hrec _ _ _ _ (updBuf_qinv hst hf))

/-- Adding one fresh Write node (anywhere) to `pending` preserves the
structural invariant. -/
theorem extend_write_qinv {st : BQ} {w : Request} {pend' : List Request}
    (hq : QInv st) (hty : isB w = false) (hrid : w.rid = st.nextId)
    (hperm : pend'.Perm (w :: st.pending))
    (hfil : pend'.filter isB = st.pending.filter isB) :
    QInv { st with pending := pend', nextId := st.nextId + 1,
                   queueSize := st.queueSize + 1 } := by
  obtain ⟨h1, h2, h3, h4, h5⟩ := hq
  refine ⟨?_, ?_, ?_, h4, h5⟩
  · show st.secs = pend'.filter isB
    rw [hfil, h1]
  · show ((pend' ++ st.inflight).map Request.rid).Nodup
    have hp : (pend' ++ st.inflight).Perm (w :: (st.pending ++ st.inflight)) :=
      (hperm.append_right st.inflight).trans (by rw [List.cons_append])
    apply ((hp.map Request.rid).nodup_iff).mpr
    rw [List.map_cons]
    apply List.Nodup.cons ?_ h2
    intro hmem
    obtain ⟨x, hx, hxw⟩ := List.mem_map.mp hmem
    have := h3 x hx
    rw [hxw, hrid] at this
    omega
  · show ∀ r ∈ pend' ++ st.inflight, r.rid < st.nextId + 1
    intro r hr
    have hp : (pend' ++ st.inflight).Perm (w :: (st.pending ++ st.inflight)) :=
      (hperm.append_right st.inflight).trans (by rw [List.cons_append])
    rcases List.mem_cons.mp (hp.mem_iff.mp hr) with rfl | hrm
    · omega
    · have := h3 r hrm
      omega

theorem pwrite_qinv : ∀ (fuel cs off sz : Nat) (nb : Nat → Nat) (s : BQ),
    QInv s → QInv (blkqueue_pwrite fuel cs off sz nb s).2 := by
  intro fuel
  induction fuel with
  | zero => exact fun _ _ _ _ _ h => h
  | succ n ih =>
    intro cs off sz nb s hs
    show QInv (blkqueue_pwrite (n + 1) cs off sz nb s).2
    rw [blkqueue_pwrite]
    by_cases hwb : s.wbModes = false
    · rw [if_pos hwb]
      exact hs
    · rw [if_neg hwb]
      set W := scanWrite (fun cs' o z st => blkqueue_pwrite n cs' o z nb st) cs nb
        ((s.pending.map Request.rid).reverse) cs off sz s with hWdef
      have hw : QInv W.st := scanWrite_qinv
        (fun cs' o z st => blkqueue_pwrite n cs' o z nb st)
        (fun cs' o z st h => ih cs' o z nb st h) cs nb
        ((s.pending.map Request.rid).reverse) cs off sz s hs
      by_cases hc : W.completed = true
      · rw [if_pos hc]
        exact hw
      · rw [if_neg hc]
        cases hfind : findSectionGE W.st.secs W.cs with
        | some b =>
          exact extend_write_qinv
            (w := { mkWrite W.st.nextId W.off W.sz W.cs nb with sec := b.sec })
            hw (by simp [isB, mkWrite]) (by simp [mkWrite])
            (insertBeforeRid_perm _ _ _)
            (filter_insertBeforeRid (by simp [isB, mkWrite]))
        | none =>
          exact extend_write_qinv
            (w := mkWrite W.st.nextId W.off W.sz W.cs nb)
            hw (by simp [isB, mkWrite]) (by simp [mkWrite])
            (List.perm_append_comm.trans (by rw [List.singleton_append]))
            (by rw [List.filter_append]
                simp [isB, mkWrite])

theorem map_rid_of_pres {l : List Request} {g : Request → Request}
    (hg : ∀ r, (g r).rid = r.rid) :
    (l.map g).map Request.rid = l.map Request.rid := by
  induction l with
  | nil => rfl
  | cons a rest ih => simp only [List.map_cons, hg a, ih]

theorem map_congr_mem {l : List Request} {f g : Request → Request}
    (h : ∀ r ∈ l, f r = g r) : l.map f = l.map g := by
  induction l with
  | nil => rfl
  | cons a rest ih =>
    simp only [List.map_cons, h a (by simp)]
    rw [ih (fun r hr => h r (List.mem_cons_of_mem _ hr))]

theorem attachAcb_qinv {s : BQ} {i a : Nat} (hq : QInv s) :
    QInv (attachAcb s i a) := by
  obtain ⟨h1, h2, h3, h4, h5⟩ := hq
  refine ⟨?_, ?_, ?_, h4, h5⟩
  · show updRid s.secs i _ = (updRid s.pending i _).filter isB
    rw [h1]
    exact (filter_map_pred_comm (fun r => by
      by_cases h : r.rid = i
      · simp [h, isB]
      · simp [h])).symm
  · show ((updRid s.pending i _ ++ s.inflight).map Request.rid).Nodup
    rw [List.map_append,
      map_rid_updRid (g := fun r => { r with acbs := a :: r.acbs }) (fun r => rfl),
      ← List.map_append]
    exact h2
  · show ∀ r ∈ updRid s.pending i _ ++ s.inflight, r.rid < s.nextId
    intro r hr
    rcases List.mem_append.mp hr with hr | hr
    · simp only [updRid] at hr
      obtain ⟨x, hx, rfl⟩ := List.mem_map.mp hr
      by_cases h : x.rid = i
      · rw [if_pos h]
        exact h3 x (List.mem_append.mpr (Or.inl hx))
      · rw [if_neg h]
        exact h3 x (List.mem_append.mpr (Or.inl hx))
    · exact h3 r (List.mem_append.mpr (Or.inr hr))

theorem append_barrier_qinv {s : BQ} (cs : Nat) (hq : QInv s) :
    QInv { s with pending := s.pending ++ [mkBarrier s.nextId cs]
                  secs := s.secs ++ [mkBarrier s.nextId cs]
                  queueSize := s.queueSize + 1
                  nextId := s.nextId + 1 } := by
  obtain ⟨h1, h2, h3, h4, h5⟩ := hq
  have hperm : ((s.pending ++ [mkBarrier s.nextId cs]) ++ s.inflight).Perm
      (mkBarrier s.nextId cs :: (s.pending ++ s.inflight)) := by
    refine (List.Perm.append_right s.inflight ?_).trans (by rw [List.cons_append])
    exact List.perm_append_comm.trans (by rw [List.singleton_append])
  refine ⟨?_, ?_, ?_, h4, h5⟩
  · show s.secs ++ [mkBarrier s.nextId cs] =
      (s.pending ++ [mkBarrier s.nextId cs]).filter isB
    rw [List.filter_append, h1]
    simp [isB, mkBarrier]
  · show (((s.pending ++ [mkBarrier s.nextId cs]) ++ s.inflight).map
      Request.rid).Nodup
    apply ((hperm.map Request.rid).nodup_iff).mpr
    rw [List.map_cons]
    apply List.Nodup.cons ?_ h2
    intro hmem
    obtain ⟨x, hx, hxw⟩ := List.mem_map.mp hmem
    have := h3 x hx
    rw [hxw] at this
    simp [mkBarrier] at this
  · show ∀ r ∈ (s.pending ++ [mkBarrier s.nextId cs]) ++ s.inflight,
      r.rid < s.nextId + 1
    intro r hr
    rcases List.mem_cons.mp (hperm.mem_iff.mp hr) with rfl | hrm
    · simp [mkBarrier]
    · have := h3 r hrm
      omega

theorem insert_barrier_qinv (acb : Option Nat) (cs : Nat) (s : BQ)
    (hq : QInv s) : QInv (insert_barrier acb cs s).2 := by
  unfold insert_barrier
  cases hfind : findMergeBarrier acb.isSome ((s.pending.getLast?).map Request.rid)
      cs s.secs with
  | some b =>
    cases acb with
    | none => exact hq
    | some a => exact attachAcb_qinv hq
  | none =>
    cases acb with
    | none => exact append_barrier_qinv cs hq
    | some a => exact attachAcb_qinv (append_barrier_qinv cs hq)

theorem barrier_qinv (cs : Nat) (s : BQ) (hq : QInv s) :
    QInv (blkqueue_barrier cs s).2 := by
  unfold blkqueue_barrier
  by_cases hwb : s.wbModes = false
  · rw [if_pos hwb]
    exact hq
  · rw [if_neg hwb]
    exact insert_barrier_qinv none cs s hq

theorem aio_flush_qinv (acbId cs : Nat) (s : BQ) (hq : QInv s) :
    QInv (blkqueue_aio_flush acbId cs s).2 := by
  unfold blkqueue_aio_flush
  by_cases hwb : s.wbModes = false
  · rw [if_pos hwb]
    exact hq
  · rw [if_neg hwb]
    exact insert_barrier_qinv (some acbId) cs s hq

theorem pop_qinv (s : BQ) (hq : QInv s) : QInv (blkqueue_pop s).2 := by
  obtain ⟨h1, h2, h3, h4, h5⟩ := hq
  cases hp : s.pending with
  | nil =>
    simp only [blkqueue_pop, hp]
    exact ⟨h1, h2, h3, h4, h5⟩
  | cons r rest =>
    simp only [blkqueue_pop, hp]
    have hsub : ((rest ++ s.inflight).map Request.rid).Sublist
        (((r :: rest) ++ s.inflight).map Request.rid) := by
      apply List.Sublist.map
      rw [List.cons_append]
      exact List.sublist_cons_self _ _
    refine ⟨?_, ?_, ?_, h4, h5⟩
    · by_cases hb : r.rtype = ReqType.barrier
      · rw [if_pos hb, h1, hp, List.filter_cons_of_pos (by simp [isB, hb])]
        rfl
      · rw [if_neg hb, h1, hp, List.filter_cons_of_neg (by simp [isB, hb])]
    · exact List.Nodup.sublist hsub (hp ▸ h2)
    · intro x hx
      apply h3
      rw [hp, List.cons_append]
      exact List.mem_cons_of_mem _ hx

theorem submit_qinv (s : BQ) (hq : QInv s) :
    QInv (blkqueue_submit_request s).2 := by
  by_cases he : s.errorRet ≠ 0
  · simp only [blkqueue_submit_request, if_pos he]
    exact hq
  · cases hp : s.pending with
    | nil =>
      simp only [blkqueue_submit_request, if_neg he, hp]
      exact hq
    | cons req rest =>
      by_cases hi : s.inFlightNum > 0
      · simp only [blkqueue_submit_request, if_neg he, hp, if_pos hi]
        exact hq
      · by_cases hbar : s.flushing = 0 ∧ s.numWaiting = 0 ∧
            req.rtype = ReqType.barrier ∧ s.queueSize < 50
        · simp only [blkqueue_submit_request, if_neg he, hp, if_neg hi, if_pos hbar]
          exact hq
        · simp only [blkqueue_submit_request, if_neg he, hp, if_neg hi, if_neg hbar,
            blkqueue_pop]
          obtain ⟨h1, h2, h3, h4, h5⟩ := hq
          have hnum : s.inFlightNum = 0 := by omega
          have hinfl : s.inflight = [] := by
            have := h4
            rw [hnum] at this
            exact (List.length_eq_zero.mp this.symm)
          have hperm : ((rest ++ [req])).Perm (req :: rest) :=
            List.perm_append_comm.trans (by rw [List.singleton_append])
          refine ⟨?_, ?_, ?_, ?_, ?_⟩

          · show (if req.rtype = ReqType.barrier then s.secs.tail else s.secs) =
              rest.filter isB
            by_cases hb : req.rtype = ReqType.barrier
            · rw [if_pos hb, h1, hp, List.filter_cons_of_pos (by simp [isB, hb])]
              rfl
            · rw [if_neg hb, h1, hp, List.filter_cons_of_neg (by simp [isB, hb])]
          · show ((rest ++ (s.inflight ++ [req])).map Request.rid).Nodup
            rw [hinfl, List.nil_append]
            apply ((hperm.map Request.rid).nodup_iff).mpr
            have h2' := hp ▸ h2
            rw [hinfl, List.append_nil] at h2'
            exact h2'
          · show ∀ r ∈ rest ++ (s.inflight ++ [req]), r.rid < s.nextId
            intro x hx
            rw [hinfl, List.nil_append] at hx
            apply h3
            rw [hp]
            rcases List.mem_cons.mp (hperm.mem_iff.mp hx) with rfl | hxm
            · exact List.mem_append.mpr (Or.inl (by simp))
            · exact List.mem_append.mpr (Or.inl (List.mem_cons_of_mem _ hxm))
          · show s.inFlightNum + 1 = (s.inflight ++ [req]).length
            rw [hinfl, hnum]
            rfl
          · show (s.inflight ++ [req]).length ≤ 1
            rw [hinfl]
            rfl

theorem fail_flush_qinv (ret : Int) (keep : Bool) (s : BQ) (hq : QInv s) :
    QInv (blkqueue_fail_flush ret keep s) := by
  obtain ⟨h1, h2, h3, h4, h5⟩ := hq
  have hmem : ∀ b ∈ s.secs, b ∈ s.pending := by
    intro b hb
    rw [h1] at hb
    exact List.mem_of_mem_filter hb
  unfold blkqueue_fail_flush
  cases keep with
  | true =>
    simp only [if_pos rfl]
    refine ⟨?_, ?_, ?_, h4, h5⟩
    · show s.secs.map _ = (s.pending.map _).filter isB
      rw [filter_map_pred_comm (fun r => by simp [isB]), ← h1]
      apply map_congr_mem
      intro b hb
      have : s.pending.any (fun r => r.rid = b.rid) = true := by
        apply List.any_eq_true.mpr
        exact ⟨b, hmem b hb, by simp⟩
      rw [if_pos this]
    · show ((s.pending.map (fun r : Request => { r with acbs := [] }) ++
        s.inflight).map Request.rid).Nodup
      rw [List.map_append,
        map_rid_of_pres (g := fun r : Request => { r with acbs := [] })
          (fun r => rfl),
        ← List.map_append]
      exact h2
    · show ∀ r ∈ s.pending.map (fun r : Request => { r with acbs := [] }) ++
        s.inflight, r.rid < s.nextId
      intro r hr
      rcases List.mem_append.mp hr with hr | hr
      · obtain ⟨x, hx, rfl⟩ := List.mem_map.mp hr
        exact h3 x (List.mem_append.mpr (Or.inl hx))
      · exact h3 r (List.mem_append.mpr (Or.inr hr))
  | false =>
    simp only [Bool.false_eq_true, if_false]
    refine ⟨?_, ?_, ?_, h4, h5⟩
    · show s.secs.filter _ = List.filter isB []
      rw [filter_not_any_nil hmem]
      rfl
    · show (([] ++ s.inflight).map Request.rid).Nodup
      rw [List.nil_append]
      rw [List.map_append] at h2
      exact (List.nodup_append.mp h2).2.1
    · intro r hr
      rw [List.nil_append] at hr
      exact h3 r (List.mem_append.mpr (Or.inr hr))

theorem fail_flush_keep_frame (ret : Int) (s : BQ) :
    (blkqueue_fail_flush ret true s).pending =
      s.pending.map (fun r => { r with acbs := [] }) ∧
    (blkqueue_fail_flush ret true s).inflight = s.inflight ∧
    (blkqueue_fail_flush ret true s).nextId = s.nextId := by
  refine ⟨rfl, rfl, rfl⟩

/-- Reinserting the failed request at the head of the queue (and of
`sections` if it is a Barrier) preserves the structural invariant. -/
theorem reinsert_qinv {t : BQ} {req : Request}
    (hq : QInv t) (hfresh : req.rid ∉ t.pending.map Request.rid)
    (hbd : req.rid < t.nextId) (hinfl : t.inflight = []) :
    QInv { t with
           pending := req :: t.pending
           secs := if req.rtype = ReqType.barrier then req :: t.secs else t.secs
           errorRet := 0 } := by
  obtain ⟨h1, h2, h3, h4, h5⟩ := hq
  refine ⟨?_, ?_, ?_, h4, h5⟩
  · show (if req.rtype = ReqType.barrier then req :: t.secs else t.secs) =
      (req :: t.pending).filter isB
    by_cases hb : req.rtype = ReqType.barrier
    · rw [if_pos hb, List.filter_cons_of_pos (by simp [isB, hb]), h1]
    · rw [if_neg hb, List.filter_cons_of_neg (by simp [isB, hb]), h1]
  · show (((req :: t.pending) ++ t.inflight).map Request.rid).Nodup
    rw [hinfl, List.append_nil, List.map_cons]
    apply List.Nodup.cons hfresh
    have := h2
    rw [hinfl, List.append_nil] at this
    exact this
  · intro r hr
    rw [hinfl, List.append_nil] at hr
    rcases List.mem_cons.mp hr with rfl | hrm
    · exact hbd
    · exact h3 r (List.mem_append.mpr (Or.inl hrm))

theorem complete_qinv (ret : Int) (keep : Bool) (s : BQ) (hq : QInv s) :
    QInv (blkqueue_process_request_cb ret keep s) := by
  cases hin : s.inflight with
  | nil =>
    simp only [blkqueue_process_request_cb, hin]
    exact hq
  | cons req restIF =>
    obtain ⟨h1, h2, h3, h4, h5⟩ := hq
    have hrest : restIF = [] := by
      rw [hin] at h5
      simp only [List.length_cons] at h5
      exact List.length_eq_zero.mp (by omega)
    subst hrest
    have h2' : ((s.pending ++ [req]).map Request.rid).Nodup := hin ▸ h2
    have hreqfresh : req.rid ∉ s.pending.map Request.rid := by
      rw [List.map_append] at h2'
      intro hc
      exact (List.nodup_append.mp h2').2.2 hc (by simp)
    have hreqbd : req.rid < s.nextId := by
      apply h3
      rw [hin]
      exact List.mem_append.mpr (Or.inr (by simp))
    have hq3 : QInv { s with
        inflight := []
        inFlightNum := s.inFlightNum - 1
        errorRet := if ret < 0 ∧ s.errorRet ≠ -28 then ret else s.errorRet
        numWaiting := s.numWaiting - (req.acbs.length : Int)
        log := s.log ++ req.acbs.map (fun a => Ev.cbFire a
          (if ret < 0 ∧ s.errorRet ≠ -28 then ret else s.errorRet)) } := by
      refine ⟨h1, ?_, ?_, ?_, by simp⟩
      · show ((s.pending ++ []).map Request.rid).Nodup
        rw [List.append_nil]
        rw [List.map_append] at h2'
        exact (List.nodup_append.mp h2').1
      · intro r hr
        rw [List.append_nil] at hr
        apply h3
        rw [hin]
        exact List.mem_append.mpr (Or.inl hr)
      · show s.inFlightNum - 1 = ([] : List Request).length
        rw [h4, hin]
        rfl
    by_cases hcond : ret < 0 ∧ s.errorRet ≠ -28
    · have hq3' := hq3
      rw [if_pos hcond] at hq3'
      have hret : ret < 0 := hcond.1
      cases keep with
      | false =>
        simp only [blkqueue_process_request_cb, hin, if_pos hcond, if_pos hret,
          Bool.false_eq_true, if_false]
        exact fail_flush_qinv _ false _ hq3'
      | true =>
        simp only [blkqueue_process_request_cb, hin, if_pos hcond, if_pos hret,
          if_pos rfl]
        have hff := fail_flush_qinv ret true _ hq3'
        apply reinsert_qinv hff
        · rw [(fail_flush_keep_frame _ _).1,
            map_rid_of_pres (g := fun r : Request => { r with acbs := [] })
              (fun r => rfl)]
          exact hreqfresh
        · rw [(fail_flush_keep_frame _ _).2.2]
          exact hreqbd
        · exact (fail_flush_keep_frame _ _).2.1
    · have hq3' := hq3
      rw [if_neg hcond] at hq3'
      by_cases hret : ret < 0
      · cases keep with
        | false =>
          simp only [blkqueue_process_request_cb, hin, if_neg hcond, if_pos hret,
            Bool.false_eq_true, if_false]
          exact fail_flush_qinv _ false _ hq3'
        | true =>
          simp only [blkqueue_process_request_cb, hin, if_neg hcond, if_pos hret,
            if_pos rfl]
          have hff := fail_flush_qinv s.errorRet true _ hq3'
          apply reinsert_qinv hff
          · rw [(fail_flush_keep_frame _ _).1,
              map_rid_of_pres (g := fun r : Request => { r with acbs := [] })
                (fun r => rfl)]
            exact hreqfresh
          · rw [(fail_flush_keep_frame _ _).2.2]
            exact hreqbd
          · exact (fail_flush_keep_frame _ _).2.1
      · simp only [blkqueue_process_request_cb, hin, if_neg hcond, if_neg hret]
        by_cases hw : req.rtype = ReqType.write
        · simp only [if_pos hw]
          exact hq3'
        · simp only [if_neg hw]
          exact hq3'
/-! ### The operational step relation and reachability -/

/-- One queue operation, performed by an arbitrary producer context
(`cs` ranges over every possible context section) or by the completion
driver.  `complete` covers `blkqueue_process_request_cb` for any
backend result and any error-handler answer, including the error-path
reinsertion at the head. -/
inductive BStep : BQ → BQ → Prop
  | pwrite (fuel cs off sz : Nat) (nb : Nat → Nat) (s : BQ) :
      BStep s (blkqueue_pwrite fuel cs off sz nb s).2
  | barrier (cs : Nat) (s : BQ) : BStep s (blkqueue_barrier cs s).2
  | aioFlush (acbId cs : Nat) (s : BQ) :
      BStep s (blkqueue_aio_flush acbId cs s).2
  | pop (s : BQ) : BStep s (blkqueue_pop s).2
  | submit (s : BQ) : BStep s (blkqueue_submit_request s).2
  | complete (ret : Int) (keep : Bool) (s : BQ) :
      BStep s (blkqueue_process_request_cb ret keep s)
  | failFlush (ret : Int) (keep : Bool) (s : BQ) :
      BStep s (blkqueue_fail_flush ret keep s)

/-- States reachable from a freshly created queue by any sequence of
operations. -/
inductive Reach : BQ → Prop
  | init (wb : Bool) (d : Nat → Nat) : Reach (blkqueue_create wb d)
  | step {s s' : BQ} : Reach s → BStep s s' → Reach s'

theorem qinv_init (wb : Bool) (d : Nat → Nat) : QInv (blkqueue_create wb d) := by
  refine ⟨rfl, by simp [blkqueue_create], by simp [blkqueue_create], rfl, by simp [blkqueue_create]⟩

theorem qinv_step {s s' : BQ} (h : BStep s s') (hq : QInv s) : QInv s' := by
  cases h with
  | pwrite fuel cs off sz nb s => exact pwrite_qinv fuel cs off sz nb s hq
  | barrier cs s => exact barrier_qinv cs s hq
  | aioFlush acbId cs s => exact aio_flush_qinv acbId cs s hq
  | pop s => exact pop_qinv s hq
  | submit s => exact submit_qinv s hq
  | complete ret keep s => exact complete_qinv ret keep s hq
  | failFlush ret keep s => exact fail_flush_qinv ret keep s hq

theorem qinv_reach {s : BQ} (h : Reach s) : QInv s := by
  induction h with
  | init wb d => exact qinv_init wb d
  | step _ hstep ih => exact qinv_step hstep ih

/-! ### C5: invariant I1 -/

/-- C5.  At every state reachable by any sequence of pwrite, barrier,
aio_flush, pop, submission, completion (with its error-path head
reinsertion) and fail-flush operations, `sections` is exactly the
subsequence of Barrier-typed requests of `pending`, in the same
relative order; in particular when `pending` starts with a Barrier,
that Barrier is the head of `sections` (the `blkqueue_pop` assert). -/
theorem c5_sections_is_barrier_sublist (s : BQ) (h : Reach s) :
    s.secs = s.pending.filter isB ∧
    (∀ b rest, s.pending = b :: rest → b.rtype = ReqType.barrier →
      s.secs.head? = some b) := by
  have h1 := (qinv_reach h).1
  refine ⟨h1, ?_⟩
  intro b rest hp hb
  rw [h1, hp, List.filter_cons_of_pos (by simp [isB, hb])]
  rfl

/-- Witness for C5 on a state reached by a pwrite, a barrier and an
aio_flush from a fresh queue. -/
theorem c5_sections_is_barrier_sublist_witness :
    ((blkqueue_aio_flush 7 1 (blkqueue_barrier 0 oneWriteS).2).2).secs =
      ((blkqueue_aio_flush 7 1 (blkqueue_barrier 0 oneWriteS).2).2).pending.filter
        isB ∧
    (∀ b rest,
      ((blkqueue_aio_flush 7 1 (blkqueue_barrier 0 oneWriteS).2).2).pending =
        b :: rest → b.rtype = ReqType.barrier →
      ((blkqueue_aio_flush 7 1 (blkqueue_barrier 0 oneWriteS).2).2).secs.head? =
        some b) :=
  c5_sections_is_barrier_sublist _
    (Reach.step
      (Reach.step
        (Reach.step (Reach.init true dZero)
          (BStep.pwrite 8 0 0 4 (fun _ => 7) (blkqueue_create true dZero)))
        (BStep.barrier 0 oneWriteS))
      (BStep.aioFlush 7 1 (blkqueue_barrier 0 oneWriteS).2))

/-! ### C10: at most one request in flight -/

/-- C10.  At every reachable state the `in_flight` list holds at most
one request and `in_flight_num ≤ 1` (indeed `in_flight_num` equals the
list length): submission refuses whenever a request is in flight and a
completion removes its request before the driver submits again. -/
theorem c10_single_in_flight (s : BQ) (h : Reach s) :
    s.inflight.length ≤ 1 ∧ s.inFlightNum ≤ 1 ∧
    s.inFlightNum = s.inflight.length := by
  obtain ⟨_, _, _, h4, h5⟩ := qinv_reach h
  exact ⟨h5, by omega, h4⟩

/-- Witness for C10 on a state with a submitted request in flight. -/
theorem c10_single_in_flight_witness :
    (blkqueue_submit_request oneWriteS).2.inflight.length ≤ 1 ∧
    (blkqueue_submit_request oneWriteS).2.inFlightNum ≤ 1 ∧
    (blkqueue_submit_request oneWriteS).2.inFlightNum =
      (blkqueue_submit_request oneWriteS).2.inflight.length :=
  c10_single_in_flight _
    (Reach.step
      (Reach.step (Reach.init true dZero)
        (BStep.pwrite 8 0 0 4 (fun _ => 7) (blkqueue_create true dZero)))
      (BStep.submit oneWriteS))

/-! ### C3: insertion position of a pwrite that is not fully absorbed -/

/-- The overlap/merge pass performed by `blkqueue_pwrite fuel.succ`
(named for use in statements; definitionally the call inside
`blkqueue_pwrite`). -/
def pwriteScan (fuel cs off sz : Nat) (nb : Nat → Nat) (s : BQ) : WScan :=
  scanWrite (fun cs' o z st => blkqueue_pwrite fuel cs' o z nb st) cs nb
    ((s.pending.map Request.rid).reverse) cs off sz s

theorem nodup_concat_rid_ne {l1 l2 : List Request} {b : Request}
    (hnd : ((l1 ++ b :: l2).map Request.rid).Nodup) :
    ∀ x ∈ l1, x.rid ≠ b.rid := by
  intro x hx hc
  rw [List.map_append] at hnd
  exact (List.nodup_append.mp hnd).2.2
    (List.mem_map.mpr ⟨x, hx, rfl⟩) (by simp [hc])

/-- C3.  On a write-back queue, when the overlap pass does not fully
absorb the incoming write, `blkqueue_pwrite` allocates a fresh Write
request carrying an owned copy of the (remaining) incoming bytes of
exactly the (remaining) size, and inserts it into `pending`
immediately before the first Barrier whose section is ≥ the new
write's section — no earlier Barrier qualifies — or appends it at the
tail when no Barrier qualifies at all. -/
theorem c3_pwrite_insert_position (fuel cs off sz : Nat) (nb : Nat → Nat)
    (s : BQ) (hwb : s.wbModes = true) (hq : QInv s)
    (hnc : (pwriteScan fuel cs off sz nb s).completed = false) :
    (mkWrite (pwriteScan fuel cs off sz nb s).st.nextId
        (pwriteScan fuel cs off sz nb s).off
        (pwriteScan fuel cs off sz nb s).sz
        (pwriteScan fuel cs off sz nb s).cs nb).size =
      (pwriteScan fuel cs off sz nb s).sz ∧
    (mkWrite (pwriteScan fuel cs off sz nb s).st.nextId
        (pwriteScan fuel cs off sz nb s).off
        (pwriteScan fuel cs off sz nb s).sz
        (pwriteScan fuel cs off sz nb s).cs nb).buf =
      (List.range (pwriteScan fuel cs off sz nb s).sz).map
        (fun j => nb ((pwriteScan fuel cs off sz nb s).off + j)) ∧
    (mkWrite (pwriteScan fuel cs off sz nb s).st.nextId
        (pwriteScan fuel cs off sz nb s).off
        (pwriteScan fuel cs off sz nb s).sz
        (pwriteScan fuel cs off sz nb s).cs nb).buf.length =
      (pwriteScan fuel cs off sz nb s).sz ∧
    ((∃ l1 b l2, (pwriteScan fuel cs off sz nb s).st.pending = l1 ++ b :: l2 ∧
        isB b = true ∧ (pwriteScan fuel cs off sz nb s).cs ≤ b.sec ∧
        (∀ x ∈ l1, isB x = true → x.sec < (pwriteScan fuel cs off sz nb s).cs) ∧
        (blkqueue_pwrite (fuel + 1) cs off sz nb s).2.pending =
          l1 ++ ({ mkWrite (pwriteScan fuel cs off sz nb s).st.nextId
              (pwriteScan fuel cs off sz nb s).off
              (pwriteScan fuel cs off sz nb s).sz
              (pwriteScan fuel cs off sz nb s).cs nb with sec := b.sec })
            :: b :: l2) ∨
      ((∀ x ∈ (pwriteScan fuel cs off sz nb s).st.pending,
          isB x = true → x.sec < (pwriteScan fuel cs off sz nb s).cs) ∧
        (blkqueue_pwrite (fuel + 1) cs off sz nb s).2.pending =
          (pwriteScan fuel cs off sz nb s).st.pending ++
            [mkWrite (pwriteScan fuel cs off sz nb s).st.nextId
              (pwriteScan fuel cs off sz nb s).off
              (pwriteScan fuel cs off sz nb s).sz
              (pwriteScan fuel cs off sz nb s).cs nb])) := by
  refine ⟨rfl, rfl, by simp [mkWrite], ?_⟩
  have hwq : QInv (pwriteScan fuel cs off sz nb s).st :=
    scanWrite_qinv (fun cs' o z st => blkqueue_pwrite fuel cs' o z nb st)
      (fun cs' o z st h => pwrite_qinv fuel cs' o z nb st h) cs nb
      ((s.pending.map Request.rid).reverse) cs off sz s hq
  have hres : (blkqueue_pwrite (fuel + 1) cs off sz nb s).2 =
      (match findSectionGE (pwriteScan fuel cs off sz nb s).st.secs
          (pwriteScan fuel cs off sz nb s).cs with
        | some b =>
          (b.sec, { (pwriteScan fuel cs off sz nb s).st with
            pending := insertBeforeRid (pwriteScan fuel cs off sz nb s).st.pending
              b.rid { mkWrite (pwriteScan fuel cs off sz nb s).st.nextId
                (pwriteScan fuel cs off sz nb s).off
                (pwriteScan fuel cs off sz nb s).sz
                (pwriteScan fuel cs off sz nb s).cs nb with sec := b.sec }
            nextId := (pwriteScan fuel cs off sz nb s).st.nextId + 1
            queueSize := (pwriteScan fuel cs off sz nb s).st.queueSize + 1 })
        | none =>
          ((pwriteScan fuel cs off sz nb s).cs,
            { (pwriteScan fuel cs off sz nb s).st with
              pending := (pwriteScan fuel cs off sz nb s).st.pending ++
                [mkWrite (pwriteScan fuel cs off sz nb s).st.nextId
                  (pwriteScan fuel cs off sz nb s).off
                  (pwriteScan fuel cs off sz nb s).sz
                  (pwriteScan fuel cs off sz nb s).cs nb]
              nextId := (pwriteScan fuel cs off sz nb s).st.nextId + 1
              queueSize := (pwriteScan fuel cs off sz nb s).st.queueSize + 1 })).2
      := by
    rw [blkqueue_pwrite]
    rw [if_neg (by rw [hwb]; exact fun hc => Bool.true_eq_false.mp hc)]
    rw [show (scanWrite (fun cs' o z st => blkqueue_pwrite fuel cs' o z nb st)
      cs nb ((s.pending.map Request.rid).reverse) cs off sz s) =
      pwriteScan fuel cs off sz nb s from rfl]
    rw [if_neg (by rw [hnc]; exact fun hc => Bool.false_eq_true.mp hc)]
  cases hfind : findSectionGE (pwriteScan fuel cs off sz nb s).st.secs
      (pwriteScan fuel cs off sz nb s).cs with
  | some b =>
    left
    have hfind' : (pwriteScan fuel cs off sz nb s).st.secs.find?
        (fun x => (pwriteScan fuel cs off sz nb s).cs ≤ x.sec) = some b := hfind
    obtain ⟨u, v, hsecs, hpb, hu⟩ := exists_of_find?_eq_some hfind'
    have hfil : (pwriteScan fuel cs off sz nb s).st.pending.filter isB =
        u ++ b :: v := by
      rw [← hwq.1, hsecs]
    obtain ⟨l1, l2, hpend, hl1, hl2⟩ := filter_eq_append_cons hfil
    have hbb : isB b = true := by
      have : b ∈ (pwriteScan fuel cs off sz nb s).st.pending.filter isB := by
        rw [hfil]
        exact List.mem_append.mpr (Or.inr (by simp))
      exact List.of_mem_filter this
    have hnd : (((l1 ++ b :: l2)).map Request.rid).Nodup := by
      have := hwq.2.1
      rw [hpend] at this
      rw [List.map_append] at this
      exact (List.nodup_append.mp this).1
    refine ⟨l1, b, l2, hpend, hbb, by simpa using hpb, ?_, ?_⟩
    · intro x hx hbx
      have : x ∈ l1.filter isB := List.mem_filter.mpr ⟨hx, hbx⟩
      rw [hl1] at this
      have := hu x this
      simp only [decide_eq_false_iff_not, not_le] at this
      exact this
    · rw [hres, hfind]
      show insertBeforeRid (pwriteScan fuel cs off sz nb s).st.pending b.rid _ = _
      rw [hpend, insertBeforeRid_of_notin _ _ _ _ (nodup_concat_rid_ne hnd)]
  | none =>
    right
    have hall : ∀ x ∈ (pwriteScan fuel cs off sz nb s).st.pending,
        isB x = true → x.sec < (pwriteScan fuel cs off sz nb s).cs := by
      intro x hx hbx
      have hxf : x ∈ (pwriteScan fuel cs off sz nb s).st.secs := by
        rw [hwq.1]
        exact List.mem_filter.mpr ⟨hx, hbx⟩
      have := List.find?_eq_none.mp hfind x hxf
      simp only [decide_eq_true_eq] at this
      omega
    refine ⟨hall, ?_⟩
    rw [hres, hfind]

/-- All-fives incoming bytes, used by the C3 witness. -/
def nbFive : Nat → Nat := fun _ => 5

/-- Witness for C3: a pwrite on a fresh queue (scan trivially not
completed, no Barrier to insert before, so the tail branch fires). -/
theorem c3_pwrite_insert_position_witness :
    (blkqueue_create true dZero).wbModes = true ∧
    QInv (blkqueue_create true dZero) ∧
    (pwriteScan 4 0 0 3 nbFive (blkqueue_create true dZero)).completed = false ∧
    ((mkWrite (pwriteScan 4 0 0 3 nbFive (blkqueue_create true dZero)).st.nextId
        (pwriteScan 4 0 0 3 nbFive (blkqueue_create true dZero)).off
        (pwriteScan 4 0 0 3 nbFive (blkqueue_create true dZero)).sz
        (pwriteScan 4 0 0 3 nbFive (blkqueue_create true dZero)).cs nbFive).size =
      (pwriteScan 4 0 0 3 nbFive (blkqueue_create true dZero)).sz ∧
    (mkWrite (pwriteScan 4 0 0 3 nbFive (blkqueue_create true dZero)).st.nextId
        (pwriteScan 4 0 0 3 nbFive (blkqueue_create true dZero)).off
        (pwriteScan 4 0 0 3 nbFive (blkqueue_create true dZero)).sz
        (pwriteScan 4 0 0 3 nbFive (blkqueue_create true dZero)).cs nbFive).buf =
      (List.range (pwriteScan 4 0 0 3 nbFive (blkqueue_create true dZero)).sz).map
        (fun j => nbFive ((pwriteScan 4 0 0 3 nbFive (blkqueue_create true dZero)).off + j)) ∧
    (mkWrite (pwriteScan 4 0 0 3 nbFive (blkqueue_create true dZero)).st.nextId
        (pwriteScan 4 0 0 3 nbFive (blkqueue_create true dZero)).off
        (pwriteScan 4 0 0 3 nbFive (blkqueue_create true dZero)).sz
        (pwriteScan 4 0 0 3 nbFive (blkqueue_create true dZero)).cs nbFive).buf.length =
      (pwriteScan 4 0 0 3 nbFive (blkqueue_create true dZero)).sz ∧
    ((∃ l1 b l2, (pwriteScan 4 0 0 3 nbFive (blkqueue_create true dZero)).st.pending = l1 ++ b :: l2 ∧
        isB b = true ∧ (pwriteScan 4 0 0 3 nbFive (blkqueue_create true dZero)).cs ≤ b.sec ∧
        (∀ x ∈ l1, isB x = true → x.sec < (pwriteScan 4 0 0 3 nbFive (blkqueue_create true dZero)).cs) ∧
        (blkqueue_pwrite (4 + 1) 0 0 3 nbFive (blkqueue_create true dZero)).2.pending =
          l1 ++ ({ mkWrite (pwriteScan 4 0 0 3 nbFive (blkqueue_create true dZero)).st.nextId
              (pwriteScan 4 0 0 3 nbFive (blkqueue_create true dZero)).off
              (pwriteScan 4 0 0 3 nbFive (blkqueue_create true dZero)).sz
              (pwriteScan 4 0 0 3 nbFive (blkqueue_create true dZero)).cs nbFive with sec := b.sec })
            :: b :: l2) ∨
      ((∀ x ∈ (pwriteScan 4 0 0 3 nbFive (blkqueue_create true dZero)).st.pending,
          isB x = true → x.sec < (pwriteScan 4 0 0 3 nbFive (blkqueue_create true dZero)).cs) ∧
        (blkqueue_pwrite (4 + 1) 0 0 3 nbFive (blkqueue_create true dZero)).2.pending =
          (pwriteScan 4 0 0 3 nbFive (blkqueue_create true dZero)).st.pending ++
            [mkWrite (pwriteScan 4 0 0 3 nbFive (blkqueue_create true dZero)).st.nextId
              (pwriteScan 4 0 0 3 nbFive (blkqueue_create true dZero)).off
              (pwriteScan 4 0 0 3 nbFive (blkqueue_create true dZero)).sz
              (pwriteScan 4 0 0 3 nbFive (blkqueue_create true dZero)).cs nbFive]))) :=
  ⟨rfl, qinv_init true dZero, rfl,
    c3_pwrite_insert_position 4 0 0 3 nbFive (blkqueue_create true dZero) rfl
      (qinv_init true dZero) rfl⟩

/-! ### C1: read-your-writes

The claim fails on the code.  The trace below, built only from the
queue's own operations, reaches a state where `pending =
[Write(section 5, range 0..10, new bytes); Barrier(section 5);
Write(section 1, range 0..10, old bytes)]`: the error-path
reinsertion of a failed Barrier at the head placed that Barrier ahead
of a Write from an older section, and the later section-5 `pwrite` is
inserted before the Barrier — i.e. BEHIND the stale Write.  The
overlap pass skipped the stale Write (its section 1 is below the
writer's section floor 5), and the immediately following `pread`,
scanning in reverse, hits the stale Write first and returns the old
bytes. -/

/-- Backend device prefilled with the byte 165 (0xa5). -/
def dA5 : Nat → Nat := fun _ => 165

/-- One drain cycle for a producer: `aio_flush` (which appends or
merges a Barrier carrying a waiter, making it submittable), then the
driver submits it and the backend completes it successfully.  Advances
the producer's section by one and leaves the queue empty. -/
def cycle (acb : Nat) (p : Nat × BQ) : Nat × BQ :=
  let q := blkqueue_aio_flush acb p.1 p.2
  (q.1, blkqueue_process_request_cb 0 true (blkqueue_submit_request q.2).2)

/-- Producer a reaches section 5 on a fresh queue. -/
def trA : Nat × BQ :=
  cycle 104 (cycle 103 (cycle 102 (cycle 101 (cycle 100
    (0, blkqueue_create true dA5)))))

/-- Producer e reaches section 5 as well. -/
def trE : Nat × BQ :=
  cycle 114 (cycle 113 (cycle 112 (cycle 111 (cycle 110 (0, trA.2)))))

/-- Producer b reaches section 1. -/
def trB : Nat × BQ := cycle 120 (0, trE.2)

/-- Producer a issues `aio_flush`: a Barrier of section 5 with a
waiter is appended ... -/
def trC : Nat × BQ := blkqueue_aio_flush 130 trA.1 trB.2

/-- ... and the driver submits it (someone waits for a callback, so
the short-queue Barrier deferral does not apply). -/
def trCs : BQ := (blkqueue_submit_request trC.2).2

/-- While the Barrier is in flight, producer b queues an "old" Write
(bytes 1) over `[0, 10)` in its section 1. -/
def trD : Nat × BQ := blkqueue_pwrite 32 trB.1 0 10 (fun _ => 1) trCs

/-- The backend fails the Barrier; the error handler answers
`keep_queue = true`, so the Barrier (section 5) is reinserted at the
HEAD of `pending` — in front of b's section-1 Write — and `error_ret`
is cleared for the retry. -/
def trEs : BQ := blkqueue_process_request_cb (-5) true trD.2

/-- Producer e (section 5) writes `[20, 30)`; the new Write is
inserted before the section-5 Barrier, and the driver submits it. -/
def trF : Nat × BQ := blkqueue_pwrite 32 trE.1 20 10 (fun _ => 3) trEs

/-- The submitted Write sits in `in_flight`. -/
def trFs : BQ := (blkqueue_submit_request trF.2).2

/-- A fresh producer d reads `[20, 25)`: the read overlaps the
in-flight section-5 Write, so d's section is advanced to 5 (the
read-dependency rule). -/
def trG : Nat × (Nat → Nat) := blkqueue_pread 32 0 trFs 20 5 (fun _ => 0)

/-- Producer d (now section 5) writes the "new" bytes 2 over
`[0, 10)`.  The merge pass skips b's old Write (section 1 < floor 5)
and the fresh Write is inserted before the section-5 Barrier — behind
the stale Write. -/
def trH : Nat × BQ := blkqueue_pwrite 32 trG.1 0 10 (fun _ => 2) trFs

/-- Producer d immediately reads `[0, 10)` back, with no intervening
write to that range. -/
def trI : Nat × (Nat → Nat) := blkqueue_pread 32 trH.1 trH.2 0 10 (fun _ => 0)

/-- C1.  Read-your-writes is violated by the code: after
`pwrite(d, 0, bytes 2, 10)` returns, the immediate
`pread(d, 0, out, 10)` on the same context with no intervening writes
to that range returns the OLD bytes 1 of producer b's earlier write,
not the bytes 2 just written.  (Sanity conjuncts: the read really ran
against the post-write state — three queued requests, d's section was
bumped to 5 by the earlier overlapping read — and the written byte
was 2.) -/
theorem c1_read_your_writes_violated :
    (∀ k, k < 10 → trI.2 (0 + k) = 1) ∧
    (∀ k, k < 10 → (fun _ => (2 : Nat)) (0 + k) = 2) ∧
    trG.1 = 5 ∧
    trH.2.pending.length = 3 ∧
    trH.2.pending.map Request.sec = [5, 5, 1] ∧
    trH.2.pending.map Request.rtype = [ReqType.write, ReqType.barrier,
      ReqType.write] := by
  refine ⟨by decide, by decide, by decide, by decide, by decide, by decide⟩

end BlkQueue
